import Mathlib

/-!
A shallow embedding of the `cuda-raytracer` rendering core, written against
`src/inc/camera.hpp` (the camera / render-loop source) and, for the headers
that are not part of the provided sources (`vec3.hpp`, `ray.hpp`,
`interval.hpp`, `material.hpp`, `hittable.hpp`, `sphere.hpp`,
`hittable_list.hpp`, `color.hpp`, `rt.hpp`), against the specification's
description of those components.

Modelling conventions:
- C++ `double` arithmetic is idealised as exact rational arithmetic (`ℚ`).
  The transcendental primitives `std::sqrt`, `std::tan` and the constant pi
  have no exact rational counterpart, so they are abstracted as a parameter
  structure `MathPrims`; every theorem below is proved for an arbitrary
  interpretation of these primitives, hence in particular for the real ones.
- C++ `int` is modelled as `ℤ`; loop counters that start at `0` and only
  increase are modelled as `ℕ`.  `int` division and modulus (truncation
  toward zero) are `Int.tdiv` / `Int.tmod`.
- The global pseudo-random generator of the source is modelled, following
  the specification's design note, as a single explicitly threaded generator
  state (`ℕ`), seeded once per render invocation.
- The render loop's interaction with its environment (the atomic stop flag
  and the steady clock) is modelled by two input streams: `stop : ℕ → Bool`
  gives the value returned by the n-th `should_stop.load()` and
  `clock : ℕ → ℤ` the millisecond value returned by the n-th
  `steady_clock::now()`.  The atomic outputs (`progress`,
  `texture_needs_update`) are recorded as event traces in the render state,
  and a ghost flag `halted` records whether any cancellation checkpoint of
  the loop observed the stop flag set.
-/

/-- Abstract interpretations of the transcendental math primitives used by
the renderer (`std::sqrt`, `std::tan`, pi). -/
structure MathPrims where
  sqrt : ℚ → ℚ
  tan : ℚ → ℚ
  pi : ℚ

/-- Modelled from the spec: `degrees_to_radians` utility of `rt.hpp`
(degrees are scaled by pi / 180). -/
def degrees_to_radians (P : MathPrims) (deg : ℚ) : ℚ := deg * P.pi / 180

/-- Modelled from the spec: the 3-component vector of `vec3.hpp`, used for
points, directions and linear-light colors. -/
structure vec3 where
  x : ℚ
  y : ℚ
  z : ℚ
deriving DecidableEq

instance : Add vec3 := ⟨fun a b => ⟨a.x + b.x, a.y + b.y, a.z + b.z⟩⟩
instance : Sub vec3 := ⟨fun a b => ⟨a.x - b.x, a.y - b.y, a.z - b.z⟩⟩
instance : Neg vec3 := ⟨fun a => ⟨-a.x, -a.y, -a.z⟩⟩
instance : Mul vec3 := ⟨fun a b => ⟨a.x * b.x, a.y * b.y, a.z * b.z⟩⟩
instance : SMul ℚ vec3 := ⟨fun q v => ⟨q * v.x, q * v.y, q * v.z⟩⟩

/-- Modelled from the spec: division of a vector by a scalar. -/
def vec3.divs (v : vec3) (t : ℚ) : vec3 := ⟨v.x / t, v.y / t, v.z / t⟩

/-- Modelled from the spec: dot product. -/
def dot (a b : vec3) : ℚ := a.x * b.x + a.y * b.y + a.z * b.z

/-- Modelled from the spec: cross product. -/
def cross (a b : vec3) : vec3 :=
  ⟨a.y * b.z - a.z * b.y, a.z * b.x - a.x * b.z, a.x * b.y - a.y * b.x⟩

/-- Modelled from the spec: squared Euclidean length. -/
def vec3.length_squared (v : vec3) : ℚ := v.x * v.x + v.y * v.y + v.z * v.z

/-- Modelled from the spec: normalisation `v / v.length()`, with the square
root taken from the abstract primitives. -/
def unit_vector (sq : ℚ → ℚ) (v : vec3) : vec3 := v.divs (sq v.length_squared)

/-- Modelled from the spec: the near-zero test used by the Lambertian
scatter fallback (all components smaller than 1e-8 in absolute value). -/
def vec3.near_zero (v : vec3) : Bool :=
  decide (|v.x| < 1 / 100000000) && decide (|v.y| < 1 / 100000000) &&
    decide (|v.z| < 1 / 100000000)

/-- Modelled from the spec: mirror reflection of `v` about the normal `n`. -/
def reflect (v n : vec3) : vec3 := v - (2 * dot v n) • n

/-- Modelled from the spec: a ray, `origin + t * direction`. -/
structure ray where
  origin : vec3
  direction : vec3
deriving DecidableEq

/-- Modelled from the spec: the point of a ray at parameter `t`. -/
def ray.at (r : ray) (t : ℚ) : vec3 := r.origin + t • r.direction

/-- A rational extended with positive infinity; models the `double`
value `infinity` of `rt.hpp` used as an interval upper bound. -/
inductive QInf where
  | fin (q : ℚ)
  | inf
deriving DecidableEq

/-- Comparison `x < m` of a rational against an extended rational. -/
def QInf.gtq (m : QInf) (x : ℚ) : Bool :=
  match m with
  | .fin b => decide (x < b)
  | .inf => true

/-- Comparison `m < x` of an extended rational against a rational. -/
def QInf.ltq (m : QInf) (x : ℚ) : Bool :=
  match m with
  | .fin b => decide (b < x)
  | .inf => false

/-- Modelled from the spec: the closed numeric range of `interval.hpp` with
containment and clamp operations; the upper bound may be infinite. -/
structure interval where
  min : ℚ
  max : QInf
deriving DecidableEq

/-- Modelled from the spec: strict containment `min < x < max`, used to
validate hit distances. -/
def interval.surrounds (iv : interval) (x : ℚ) : Bool :=
  decide (iv.min < x) && iv.max.gtq x

/-- Modelled from the spec: clamp `x` into the interval. -/
def interval.clamp (iv : interval) (x : ℚ) : ℚ :=
  if x < iv.min then iv.min
  else match iv.max with
    | .fin M => if M < x then M else x
    | .inf => x

/-- Modelled from the spec: the single pseudo-random generator threaded
through the render; one step of a linear congruential generator on a
16-bit state. -/
def rngStep (s : ℕ) : ℕ := (25173 * s + 13849) % 65536

/-- Modelled from the spec: `random_double` of `rt.hpp`, a draw in [0,1)
together with the successor generator state. -/
def random_double (s : ℕ) : ℚ × ℕ :=
  let s' := rngStep s
  ((s' : ℚ) / 65536, s')

/-- Modelled from the spec: uniform random unit-vector sampling of
`vec3.hpp`, made a total deterministic function of the generator state
(three draws shaped into a direction, then normalised). -/
def random_unit_vector (sq : ℚ → ℚ) (s : ℕ) : vec3 × ℕ :=
  let (a, s1) := random_double s
  let (b, s2) := random_double s1
  let (c, s3) := random_double s2
  (unit_vector sq ⟨2 * a - 1, 2 * b - 1, 2 * c - 1⟩, s3)

/-- Modelled from the spec: `random_in_unit_disk` of `vec3.hpp`, made total
(one candidate point; the origin when the candidate falls outside the
disk). -/
def random_in_unit_disk (s : ℕ) : vec3 × ℕ :=
  let (a, s1) := random_double s
  let (b, s2) := random_double s1
  let p : vec3 := ⟨2 * a - 1, 2 * b - 1, 0⟩
  (if p.length_squared < 1 then p else ⟨0, 0, 0⟩, s2)

/-- Modelled from the spec: the three material variants of `material.hpp`
(diffuse albedo; specular albedo with fuzz; dielectric refraction index). -/
inductive material where
  | lambertian (albedo : vec3)
  | metal (albedo : vec3) (fuzz : ℚ)
  | dielectric (ior : ℚ)
deriving DecidableEq

/-- Modelled from the spec: the result of a successful intersection
(`hittable.hpp`): hit point, outward-corrected unit normal, material,
parametric distance, front-face flag. -/
structure hit_record where
  p : vec3
  normal : vec3
  mat : material
  t : ℚ
  front_face : Bool
deriving DecidableEq

/-- Modelled from the spec: the Schlick reflectance approximation of the
dielectric material. -/
def reflectance (cosine refraction_index : ℚ) : ℚ :=
  let r0 := ((1 - refraction_index) / (1 + refraction_index)) ^ 2
  r0 + (1 - r0) * (1 - cosine) ^ 5

/-- Modelled from the spec: Snell-law refraction of a unit direction `uv`
about normal `n` with index ratio `etai_over_etat`. -/
def refract (sq : ℚ → ℚ) (uv n : vec3) (etai_over_etat : ℚ) : vec3 :=
  let cos_theta := min (dot (-uv) n) 1
  let r_out_perp := etai_over_etat • (uv + cos_theta • n)
  let r_out_parallel := (-(sq |1 - r_out_perp.length_squared|)) • n
  r_out_perp + r_out_parallel

/-- Modelled from the spec: the scattering contract of `material.hpp`.
Returns the attenuation and scattered ray on success, `none` when the ray
is absorbed, together with the successor generator state. -/
def material.scatter (P : MathPrims) (m : material) (r_in : ray)
    (rec : hit_record) (g : ℕ) : Option (vec3 × ray) × ℕ :=
  match m with
  | .lambertian albedo =>
    let (ruv, g1) := random_unit_vector P.sqrt g
    let d0 := rec.normal + ruv
    let d := if d0.near_zero then rec.normal else d0
    (some (albedo, ⟨rec.p, d⟩), g1)
  | .metal albedo fuzz =>
    let (ruv, g1) := random_unit_vector P.sqrt g
    let reflected := reflect r_in.direction rec.normal + fuzz • ruv
    (if 0 < dot reflected rec.normal then some (albedo, ⟨rec.p, reflected⟩)
     else none, g1)
  | .dielectric ior =>
    let ri := if rec.front_face then 1 / ior else ior
    let ud := unit_vector P.sqrt r_in.direction
    let cos_theta := min (dot (-ud) rec.normal) 1
    let sin_theta := P.sqrt (1 - cos_theta * cos_theta)
    let cannot_refract := decide (1 < ri * sin_theta)
    let (draw, g1) := random_double g
    let d := if cannot_refract || decide (draw < reflectance cos_theta ri)
      then reflect ud rec.normal
      else refract P.sqrt ud rec.normal ri
    (some (⟨1, 1, 1⟩, ⟨rec.p, d⟩), g1)

/-- Modelled from the spec: the polymorphic surface, a sphere primitive or
an aggregate list (`sphere.hpp`, `hittable_list.hpp`). -/
inductive hittable where
  | sphere (center : vec3) (radius : ℚ) (mat : material)
  | list (objects : List hittable)

mutual

/-- Modelled from the spec: the intersection contract.  A sphere solves the
quadratic, tries the near root then the far root within the interval, and
orients the normal against the incoming ray; a list keeps the nearest hit,
shrinking the interval's upper bound as closer hits are found. -/
def hittable.hit (P : MathPrims) (h : hittable) (r : ray) (iv : interval) :
    Option hit_record :=
  match h with
  | .sphere center radius mat =>
    let oc := center - r.origin
    let a := r.direction.length_squared
    let hb := dot r.direction oc
    let c := oc.length_squared - radius * radius
    let discriminant := hb * hb - a * c
    if discriminant < 0 then none
    else
      let sqrtd := P.sqrt discriminant
      let root1 := (hb - sqrtd) / a
      let root := if iv.surrounds root1 then root1 else (hb + sqrtd) / a
      if iv.surrounds root then
        let p := r.at root
        let outward := (p - center).divs radius
        let ff := decide (dot r.direction outward < 0)
        some ⟨p, if ff then outward else -outward, mat, root, ff⟩
      else none
  | .list objects => hitMany P objects r iv

/-- Modelled from the spec: nearest-hit reduction over the members of a
`hittable_list`. -/
def hitMany (P : MathPrims) (objects : List hittable) (r : ray)
    (iv : interval) : Option hit_record :=
  match objects with
  | [] => none
  | o :: rest =>
    match hittable.hit P o r iv with
    | none => hitMany P rest r iv
    | some rec =>
      match hitMany P rest r ⟨iv.min, .fin rec.t⟩ with
      | none => some rec
      | some rec' => some rec'

end

/-- Truncation of a rational toward zero, the semantics of the C++
`int(double)` cast. -/
def truncQ (q : ℚ) : ℤ := if q < 0 then ⌈q⌉ else ⌊q⌋

/-- Modelled from the spec: `linear_to_gamma` of `color.hpp` — the square
root of a positive linear channel, and `0` at or below `0`. -/
def linear_to_gamma (sq : ℚ → ℚ) (x : ℚ) : ℚ := if 0 < x then sq x else 0

/-- The clamp range `intensity(0.000, 0.999)` of the per-pixel byte
conversion (src/inc/camera.hpp line 81). -/
def intensity : interval := ⟨0, .fin (999 / 1000)⟩

/-- The byte written for one color channel:
`static_cast<unsigned char>(256 * intensity.clamp(v))`
(src/inc/camera.hpp lines 82-87); the cast truncates, and the clamped value
is non-negative, so it is the floor. -/
def byteOf (v : ℚ) : ℤ := ⌊256 * intensity.clamp v⌋

/-- The public configuration fields of `camera` (src/inc/camera.hpp lines
13-28).  `aspect` is the source's `aspect_ratio`. -/
structure camera where
  aspect : ℚ
  image_width : ℤ
  samples_per_pixel : ℤ
  max_depth : ℤ
  vfov : ℚ
  lookfrom : vec3
  lookat : vec3
  vup : vec3
  defocus_angle : ℚ
  focus_dist : ℚ
  enable_antialiasing : Bool
  enable_shadows : Bool
  enable_reflections : Bool
  enable_refractions : Bool

/-- The private derived viewport geometry of `camera` (src/inc/camera.hpp
lines 154-161). -/
structure derivedCam where
  image_height : ℤ
  center : vec3
  pixel00_loc : vec3
  pixel_delta_u : vec3
  pixel_delta_v : vec3
  u : vec3
  v : vec3
  w : vec3
  defocus_disk_u : vec3
  defocus_disk_v : vec3

/-- `camera::initialize` (src/inc/camera.hpp lines 163-199): derives the
image height (truncated `width / aspect_ratio`, floored at 1) and the
viewport geometry. -/
def initCam (P : MathPrims) (cam : camera) : derivedCam :=
  let ih0 := truncQ ((cam.image_width : ℚ) / cam.aspect)
  let image_height : ℤ := if ih0 < 1 then 1 else ih0
  let center := cam.lookfrom
  let theta := degrees_to_radians P cam.vfov
  let hh := P.tan (theta / 2)
  let viewport_height := 2 * hh * cam.focus_dist
  let viewport_width :=
    viewport_height * ((cam.image_width : ℚ) / (image_height : ℚ))
  let w := unit_vector P.sqrt (cam.lookfrom - cam.lookat)
  let u := unit_vector P.sqrt (cross cam.vup w)
  let v := cross w u
  let viewport_u := viewport_width • u
  let viewport_v := viewport_height • (-v)
  let pixel_delta_u := viewport_u.divs (cam.image_width : ℚ)
  let pixel_delta_v := viewport_v.divs (image_height : ℚ)
  let viewport_upper_left :=
    center - cam.focus_dist • w - viewport_u.divs 2 - viewport_v.divs 2
  let pixel00_loc :=
    viewport_upper_left + (1 / 2 : ℚ) • (pixel_delta_u + pixel_delta_v)
  let defocus_radius :=
    cam.focus_dist * P.tan (degrees_to_radians P (cam.defocus_angle / 2))
  { image_height, center, pixel00_loc, pixel_delta_u, pixel_delta_v, u, v, w,
    defocus_disk_u := defocus_radius • u,
    defocus_disk_v := defocus_radius • v }

/-- `camera::sample_square` (src/inc/camera.hpp lines 213-216): a random
offset in [-0.5, 0.5)^2. -/
def sample_square (g : ℕ) : vec3 × ℕ :=
  let (a, g1) := random_double g
  let (b, g2) := random_double g1
  (⟨a - 1 / 2, b - 1 / 2, 0⟩, g2)

/-- `camera::defocus_disk_sample` (src/inc/camera.hpp lines 218-222). -/
def defocus_disk_sample (dc : derivedCam) (g : ℕ) : vec3 × ℕ :=
  let (p, g1) := random_in_unit_disk g
  (dc.center + p.x • dc.defocus_disk_u + p.y • dc.defocus_disk_v, g1)

/-- `camera::get_ray` (src/inc/camera.hpp lines 201-211): the sampled
camera ray for pixel `(i, j)`.  The generator state is consumed only when
antialiasing jitter or the defocus disk is actually sampled. -/
def get_ray (cam : camera) (dc : derivedCam) (i j : ℤ) (g : ℕ) : ray × ℕ :=
  let (offset, g1) :=
    if cam.enable_antialiasing then sample_square g else (⟨0, 0, 0⟩, g)
  let pixel_sample := dc.pixel00_loc +
    ((i : ℚ) + offset.x) • dc.pixel_delta_u +
    ((j : ℚ) + offset.y) • dc.pixel_delta_v
  let (ray_origin, g2) :=
    if cam.defocus_angle ≤ 0 then (dc.center, g1) else defocus_disk_sample dc g1
  (⟨ray_origin, pixel_sample - ray_origin⟩, g2)

/-- `camera::ray_color` (src/inc/camera.hpp lines 224-255): the depth-bounded
recursive color resolver, with the generator state threaded explicitly. -/
def ray_color (P : MathPrims) (cam : camera) (world : hittable) (r : ray)
    (depth : ℤ) (g : ℕ) : vec3 × ℕ :=
  if depth ≤ 0 then (⟨0, 0, 0⟩, g)
  else
    match hittable.hit P world r ⟨1 / 1000, .inf⟩ with
    | some rec =>
      if cam.enable_shadows then
        match material.scatter P rec.mat r rec g with
        | (some (attenuation, scattered), g1) =>
          if cam.enable_reflections || cam.enable_refractions then
            let res := ray_color P cam world scattered (depth - 1) g1
            (attenuation * res.1, res.2)
          else
            let light_dir := unit_vector P.sqrt ⟨1, 1, 1⟩
            let light_intensity := max 0 (dot rec.normal light_dir)
            ((3 / 10 + 7 / 10 * light_intensity) • attenuation, g1)
        | (none, g1) => (⟨0, 0, 0⟩, g1)
      else (⟨0, 0, 0⟩, g)
    | none =>
      let unit_direction := unit_vector P.sqrt r.direction
      let a := 1 / 2 * (unit_direction.y + 1)
      ((1 - a) • (⟨1, 1, 1⟩ : vec3) + a • (⟨1 / 2, 7 / 10, 1⟩ : vec3), g)
termination_by depth.toNat
decreasing_by simp_wf; omega

/-- A fuel-indexed variant of `ray_color` used to state the termination
bound of claim C8: `none` means the fuel ran out before the recursion
terminated. -/
def rayColorFuel (P : MathPrims) (cam : camera) (world : hittable) :
    ℕ → ray → ℤ → ℕ → Option (vec3 × ℕ)
  | 0, _, _, _ => none
  | fuel + 1, r, depth, g =>
    if depth ≤ 0 then some (⟨0, 0, 0⟩, g)
    else
      match hittable.hit P world r ⟨1 / 1000, .inf⟩ with
      | some rec =>
        if cam.enable_shadows then
          match material.scatter P rec.mat r rec g with
          | (some (attenuation, scattered), g1) =>
            if cam.enable_reflections || cam.enable_refractions then
              match rayColorFuel P cam world fuel scattered (depth - 1) g1 with
              | none => none
              | some (c, g2) => some (attenuation * c, g2)
            else
              let light_dir := unit_vector P.sqrt ⟨1, 1, 1⟩
              let light_intensity := max 0 (dot rec.normal light_dir)
              some ((3 / 10 + 7 / 10 * light_intensity) • attenuation, g1)
          | (none, g1) => some (⟨0, 0, 0⟩, g1)
        else some (⟨0, 0, 0⟩, g)
      | none =>
        let unit_direction := unit_vector P.sqrt r.direction
        let a := 1 / 2 * (unit_direction.y + 1)
        some ((1 - a) • (⟨1, 1, 1⟩ : vec3) + a • (⟨1 / 2, 7 / 10, 1⟩ : vec3), g)

/-- The per-pixel sample count of the render loop: `samples_per_pixel` when
antialiasing is enabled, `1` otherwise (src/inc/camera.hpp line 62). -/
def sampleCount (cam : camera) : ℤ :=
  if cam.enable_antialiasing then cam.samples_per_pixel else 1

/-- The fixed render context of one invocation: math primitives, camera
configuration and scene. -/
structure RenderCtx where
  P : MathPrims
  cam : camera
  world : hittable

/-- The derived viewport geometry of a render context. -/
def RenderCtx.dc (ctx : RenderCtx) : derivedCam := initCam ctx.P ctx.cam

/-- `total_pixels = image_width * image_height`
(src/inc/camera.hpp line 46). -/
def totalPix (ctx : RenderCtx) : ℤ := ctx.cam.image_width * ctx.dc.image_height

/-- `update_frequency = max(1, total_pixels / 100)`
(src/inc/camera.hpp lines 49-50). -/
def updFreq (ctx : RenderCtx) : ℤ := max 1 (Int.tdiv (totalPix ctx) 100)

/-- One recorded raise of the `texture_needs_update` flag, together with the
values of the program state the raise was decided on: the site (`perPixel`
is true for the per-pixel throttled raise of lines 111-115, false for the
row-end raise of lines 127-130), the row index, the clock value, the time
of the previous throttle reset, the pixels-since-previous-raise counter and
the completed-pixel counter. -/
structure TexEvent where
  perPixel : Bool
  row : ℕ
  now : ℤ
  lastUpdate : ℤ
  since : ℤ
  completed : ℕ
deriving DecidableEq

/-- The state of one invocation of `render_to_buffer_with_progress`.
`buffer` is the shared pixel buffer (bytes as integers in [0,255]);
`rng` the threaded generator state; `completed` and `sinceUpdate` the
`completed_pixels` / `pixels_since_update` counters; `lastUpdate` the
`last_update_time`; `pollIdx` / `clockIdx` index the next value of the
stop-flag and clock input streams; `progressTrace` records every value
stored to the atomic `progress` in order; `texTrace` records every raise of
`texture_needs_update`; `halted` is a ghost flag recording whether a
cancellation checkpoint of the loop observed the stop flag set. -/
structure RState where
  buffer : List ℤ
  rng : ℕ
  completed : ℕ
  sinceUpdate : ℤ
  lastUpdate : ℤ
  pollIdx : ℕ
  clockIdx : ℕ
  progressTrace : List ℚ
  texTrace : List TexEvent
  halted : Bool

/-- The per-pixel sample accumulation loop (src/inc/camera.hpp lines 65-69):
up to `fuel` samples of `ray_color ∘ get_ray`, polling the stop flag before
each sample.  Returns the accumulated color, generator state, next poll
index, and whether a poll observed the stop flag set. -/
def sampleLoop (ctx : RenderCtx) (stop : ℕ → Bool) (i j : ℤ) :
    ℕ → vec3 → ℕ → ℕ → vec3 × ℕ × ℕ × Bool
  | 0, acc, g, poll => (acc, g, poll, false)
  | fuel + 1, acc, g, poll =>
    if stop poll then (acc, g, poll + 1, true)
    else
      let (r, g1) := get_ray ctx.cam ctx.dc i j g
      let res := ray_color ctx.P ctx.cam ctx.world r ctx.cam.max_depth g1
      sampleLoop ctx stop i j fuel (acc + res.1) res.2 (poll + 1)

/-- The inner pixel loop (src/inc/camera.hpp lines 60-125) over the pixels
`i, i+1, ...` of row `j` (`fuel` pixels remain).  Each iteration polls the
stop flag at the pixel start and again after the samples; on a clear run it
converts the averaged color to gamma-corrected clamped bytes, writes them
at `(j * width + i) * 3`, bumps the counters, stores the progress fraction
and applies the throttled `texture_needs_update` raise. -/
def pixelLoop (ctx : RenderCtx) (stop : ℕ → Bool) (clock : ℕ → ℤ) (j : ℕ) :
    ℕ → ℕ → RState → RState
  | 0, _, st => st
  | fuel + 1, i, st =>
    if stop st.pollIdx then
      { st with pollIdx := st.pollIdx + 1, halted := true }
    else
      let st0 := { st with pollIdx := st.pollIdx + 1 }
      let n := (sampleCount ctx.cam).toNat
      let (acc, g1, poll1, obs) :=
        sampleLoop ctx stop (i : ℤ) (j : ℤ) n ⟨0, 0, 0⟩ st0.rng st0.pollIdx
      let st1 :=
        { st0 with
          rng := g1
          pollIdx := poll1
          halted := st0.halted || obs }
      if stop st1.pollIdx then
        { st1 with pollIdx := st1.pollIdx + 1, halted := true }
      else
        let st2 := { st1 with pollIdx := st1.pollIdx + 1 }
        let scale : ℚ := 1 / ((sampleCount ctx.cam : ℤ) : ℚ)
        let pc := scale • acc
        let rb := byteOf (linear_to_gamma ctx.P.sqrt pc.x)
        let gb := byteOf (linear_to_gamma ctx.P.sqrt pc.y)
        let bb := byteOf (linear_to_gamma ctx.P.sqrt pc.z)
        let idx := (j * ctx.cam.image_width.toNat + i) * 3
        let buf := ((st2.buffer.set idx rb).set (idx + 1) gb).set (idx + 2) bb
        let comp : ℕ := st2.completed + 1
        let since : ℤ := st2.sinceUpdate + 1
        let prog := (comp : ℚ) / ((totalPix ctx : ℤ) : ℚ)
        let nowv := clock st2.clockIdx
        let time_for_update := decide (100 ≤ nowv - st2.lastUpdate)
        let enough_pixels := decide (updFreq ctx ≤ since)
        let finished := decide ((comp : ℤ) = totalPix ctx)
        let raise := time_for_update || enough_pixels || finished
        let st3 :=
          { st2 with
            buffer := buf, completed := comp, clockIdx := st2.clockIdx + 1,
            sinceUpdate := if raise then 0 else since,
            lastUpdate := if raise then nowv else st2.lastUpdate,
            progressTrace := st2.progressTrace ++ [prog],
            texTrace := if raise then
                st2.texTrace ++ [⟨true, j, nowv, st2.lastUpdate, since, comp⟩]
              else st2.texTrace }
        pixelLoop ctx stop clock j fuel (i + 1) st3

/-- The outer row loop (src/inc/camera.hpp lines 59-131) over rows
`j, j+1, ...` (`fuel` rows remain).  Each iteration polls the stop flag at
the row start, runs the pixel loop, and unconditionally raises
`texture_needs_update` at the end of every row whose index is divisible by
`max(1, image_height / 20)` (lines 127-130). -/
def rowLoop (ctx : RenderCtx) (stop : ℕ → Bool) (clock : ℕ → ℤ) :
    ℕ → ℕ → RState → RState
  | 0, _, st => st
  | fuel + 1, j, st =>
    if stop st.pollIdx then
      { st with pollIdx := st.pollIdx + 1, halted := true }
    else
      let st0 := { st with pollIdx := st.pollIdx + 1 }
      let st1 := pixelLoop ctx stop clock j ctx.cam.image_width.toNat 0 st0
      let st2 :=
        if Int.tmod (j : ℤ) (max 1 (Int.tdiv ctx.dc.image_height 20)) = 0 then
          { st1 with texTrace := st1.texTrace ++
              [⟨false, j, clock st1.clockIdx, st1.lastUpdate,
                st1.sinceUpdate, st1.completed⟩] }
        else st1
      rowLoop ctx stop clock fuel (j + 1) st2

/-- `camera::render_to_buffer_with_progress` (src/inc/camera.hpp lines
31-140): derives the viewport, sizes and clears the buffer, reads the clock
once for `last_update_time`, runs the row loop, and performs the final
stop-flag load of line 133 (which only selects the completion message and
is not a cancellation checkpoint, so it does not touch `halted`). -/
def render_to_buffer_with_progress (ctx : RenderCtx) (stop : ℕ → Bool)
    (clock : ℕ → ℤ) (seed : ℕ) : RState :=
  let dc := ctx.dc
  let st0 : RState :=
    { buffer := List.replicate (ctx.cam.image_width * dc.image_height * 3).toNat 0,
      rng := seed, completed := 0, sinceUpdate := 0, lastUpdate := clock 0,
      pollIdx := 0, clockIdx := 1, progressTrace := [], texTrace := [],
      halted := false }
  let st1 := rowLoop ctx stop clock dc.image_height.toNat 0 st0
  { st1 with pollIdx := st1.pollIdx + 1 }

/-- `camera::render_to_buffer` (src/inc/camera.hpp lines 142-151): the
legacy entry point, delegating to `render_to_buffer_with_progress` with a
never-set stop flag and inert progress / update sinks. -/
def render_to_buffer (ctx : RenderCtx) (clock : ℕ → ℤ) (seed : ℕ) : RState :=
  render_to_buffer_with_progress ctx (fun _ => false) clock seed

/-- Claim-side reference: the color sum a pixel accumulates over `fuel`
samples starting from generator state `g` (the sample loop with no
cancellation polls). -/
def pixelSum (ctx : RenderCtx) (i j : ℤ) : ℕ → vec3 → ℕ → vec3 × ℕ
  | 0, acc, g => (acc, g)
  | fuel + 1, acc, g =>
    let (r, g1) := get_ray ctx.cam ctx.dc i j g
    let res := ray_color ctx.P ctx.cam ctx.world r ctx.cam.max_depth g1
    pixelSum ctx i j fuel (acc + res.1) res.2

/-- Claim-side reference: the generator state at the start of the k-th
pixel (row-major) of an uninterrupted render seeded with `seed`. -/
def rngSeq (ctx : RenderCtx) (seed : ℕ) : ℕ → ℕ
  | 0 => seed
  | k + 1 =>
    let W := ctx.cam.image_width.toNat
    (pixelSum ctx ((k % W : ℕ) : ℤ) ((k / W : ℕ) : ℤ)
      (sampleCount ctx.cam).toNat ⟨0, 0, 0⟩ (rngSeq ctx seed k)).2

/-- Claim-side reference: the summed sample colors of the k-th pixel. -/
def refSum (ctx : RenderCtx) (seed k : ℕ) : vec3 :=
  let W := ctx.cam.image_width.toNat
  (pixelSum ctx ((k % W : ℕ) : ℤ) ((k / W : ℕ) : ℤ)
    (sampleCount ctx.cam).toNat ⟨0, 0, 0⟩ (rngSeq ctx seed k)).1

/-- Claim-side reference, following C3's wording: the three channel bytes of
the k-th pixel are, for the sum of the sampled colors divided by the sample
count, the cast to byte of `256 * clamp_[0,0.999] (linear_to_gamma ·)` of
each channel, in R, G, B order. -/
def refBytes (ctx : RenderCtx) (seed k : ℕ) : ℤ × ℤ × ℤ :=
  let avg := (refSum ctx seed k).divs ((sampleCount ctx.cam : ℤ) : ℚ)
  (⌊256 * intensity.clamp (linear_to_gamma ctx.P.sqrt avg.x)⌋,
   ⌊256 * intensity.clamp (linear_to_gamma ctx.P.sqrt avg.y)⌋,
   ⌊256 * intensity.clamp (linear_to_gamma ctx.P.sqrt avg.z)⌋)

/-- Channel selector for a byte triple (0 ↦ R, 1 ↦ G, 2 ↦ B). -/
def chan (t : ℤ × ℤ × ℤ) (c : ℕ) : ℤ :=
  match c with
  | 0 => t.1
  | 1 => t.2.1
  | _ => t.2.2

/-- A concrete interpretation of the math primitives used by witnesses:
square root and tangent constantly 1, pi interpreted as 3. -/
def Pid : MathPrims := ⟨fun _ => 1, fun _ => 1, 3⟩

/-- A concrete camera for witnesses: a 1-pixel-wide, 2-pixel-high image
(aspect ratio 1/2), one sample per pixel, depth 1, antialiasing disabled,
all other feature toggles enabled, pinhole lens. -/
def camBase : camera :=
  { aspect := 1 / 2, image_width := 1, samples_per_pixel := 1, max_depth := 1,
    vfov := 90, lookfrom := ⟨0, 0, 0⟩, lookat := ⟨0, 0, -1⟩, vup := ⟨0, 1, 0⟩,
    defocus_angle := 0, focus_dist := 10, enable_antialiasing := false,
    enable_shadows := true, enable_reflections := true,
    enable_refractions := true }

/-- An empty scene (a `hittable_list` with no members). -/
def worldEmpty : hittable := .list []

/-- The tiny 1×2 render context used by witnesses. -/
def ctxTiny : RenderCtx := ⟨Pid, camBase, worldEmpty⟩

/-- A degenerate camera whose `image_width` is 0. -/
def camZ : camera := { camBase with image_width := 0, aspect := 1 }

/-- Render context of the degenerate camera. -/
def ctxZ : RenderCtx := ⟨Pid, camZ, worldEmpty⟩

/-- A one-sphere scene used by the C1 witness: a unit sphere two units in
front of the origin, with a diffuse material. -/
def worldSphere : hittable :=
  .sphere ⟨0, 0, -2⟩ 1 (.lambertian ⟨1 / 2, 1 / 4, 1 / 8⟩)

/-- The hit record produced on `worldSphere` by the axial ray of the C1
witness. -/
def rec1 : hit_record :=
  ⟨⟨0, 0, -1⟩, ⟨0, 0, 1⟩, .lambertian ⟨1 / 2, 1 / 4, 1 / 8⟩, 1, true⟩

/-- The progress fraction stored after the (t+1)-st completed pixel. -/
def progAt (ctx : RenderCtx) (t : ℕ) : ℚ :=
  ((t + 1 : ℕ) : ℚ) / ((totalPix ctx : ℤ) : ℚ)

/-- The render-loop invariant after `k` completed pixels: the counter, the
buffer size, the bytes of the completed prefix, the zeroes beyond it, the
progress trace, the recorded justification of the ghost `halted` flag, and
(while not halted) the generator position. -/
def RInv (ctx : RenderCtx) (stop : ℕ → Bool) (seed k : ℕ) (st : RState) :
    Prop :=
  st.completed = k ∧
  st.buffer.length = (ctx.cam.image_width * ctx.dc.image_height * 3).toNat ∧
  (∀ p c, p < k → c < 3 →
    st.buffer.getD (3 * p + c) 0 = chan (refBytes ctx seed p) c) ∧
  (∀ m, 3 * k ≤ m → st.buffer.getD m 0 = 0) ∧
  st.progressTrace = (List.range k).map (progAt ctx) ∧
  (st.halted = true → ∃ m, m < st.pollIdx ∧ stop m = true) ∧
  (st.halted = false → st.rng = rngSeq ctx seed k)

/-- The camera of the C9 scenario: image width 20 at 16:9 aspect ratio
(derived height 11), one sample per pixel, depth 1, antialiasing disabled,
pinhole lens. -/
def cam9 : camera :=
  { aspect := 16 / 9, image_width := 20, samples_per_pixel := 1,
    max_depth := 1, vfov := 20, lookfrom := ⟨13, 2, 3⟩, lookat := ⟨0, 0, 0⟩,
    vup := ⟨0, 1, 0⟩, defocus_angle := 0, focus_dist := 10,
    enable_antialiasing := false, enable_shadows := true,
    enable_reflections := true, enable_refractions := true }

/-- The scene of the C9 scenario: one large ground sphere and one colored
diffuse sphere. -/
def world9 : hittable :=
  .list [.sphere ⟨0, -1000, 0⟩ 1000 (.lambertian ⟨1 / 2, 1 / 2, 1 / 2⟩),
         .sphere ⟨0, 1, 0⟩ 1 (.lambertian ⟨7 / 10, 2 / 10, 2 / 10⟩)]

/-- The render context of the C9 scenario, over arbitrary math
primitives. -/
def ctx9 (P : MathPrims) : RenderCtx := ⟨P, cam9, world9⟩

/-- The derived viewport of the tiny witness camera. -/
def dcT : derivedCam :=
  { image_height := 2, center := ⟨0, 0, 0⟩, pixel00_loc := ⟨0, 5, -10⟩,
    pixel_delta_u := ⟨10, 0, 0⟩, pixel_delta_v := ⟨0, -10, 0⟩,
    u := ⟨1, 0, 0⟩, v := ⟨0, 1, 0⟩, w := ⟨0, 0, 1⟩,
    defocus_disk_u := ⟨10, 0, 0⟩, defocus_disk_v := ⟨0, 10, 0⟩ }

/-- The justification of one recorded raise of `texture_needs_update`: a
per-pixel raise (src/inc/camera.hpp lines 111-113) requires the throttle
disjunction — at least 100ms elapsed since the last raise, or at least
`update_frequency` pixels completed since the last raise, or rendering just
completed — while a row-end raise (lines 127-130) requires only that the
row index is divisible by `max 1 (image_height / 20)`. -/
def TexOk (ctx : RenderCtx) (e : TexEvent) : Prop :=
  (e.perPixel = true →
    100 ≤ e.now - e.lastUpdate ∨ updFreq ctx ≤ e.since ∨
      (e.completed : ℤ) = totalPix ctx) ∧
  (e.perPixel = false →
    Int.tmod (e.row : ℤ) (max 1 (Int.tdiv ctx.dc.image_height 20)) = 0)

/-- A write-once stop flag used by the cancellation witness: clear on the
first four polls, set from the fifth on. -/
def stop4 : ℕ → Bool := fun m => decide (4 ≤ m)

set_option maxHeartbeats 2000000
set_option maxRecDepth 8000

@[simp] theorem vec3_add_x (a b : vec3) : (a + b).x = a.x + b.x := rfl
@[simp] theorem vec3_add_y (a b : vec3) : (a + b).y = a.y + b.y := rfl
@[simp] theorem vec3_add_z (a b : vec3) : (a + b).z = a.z + b.z := rfl
@[simp] theorem vec3_sub_x (a b : vec3) : (a - b).x = a.x - b.x := rfl
@[simp] theorem vec3_sub_y (a b : vec3) : (a - b).y = a.y - b.y := rfl
@[simp] theorem vec3_sub_z (a b : vec3) : (a - b).z = a.z - b.z := rfl
@[simp] theorem vec3_neg_x (a : vec3) : (-a).x = -a.x := rfl
@[simp] theorem vec3_neg_y (a : vec3) : (-a).y = -a.y := rfl
@[simp] theorem vec3_neg_z (a : vec3) : (-a).z = -a.z := rfl
@[simp] theorem vec3_mul_x (a b : vec3) : (a * b).x = a.x * b.x := rfl
@[simp] theorem vec3_mul_y (a b : vec3) : (a * b).y = a.y * b.y := rfl
@[simp] theorem vec3_mul_z (a b : vec3) : (a * b).z = a.z * b.z := rfl
@[simp] theorem vec3_smul_x (q : ℚ) (b : vec3) : (q • b).x = q * b.x := rfl
@[simp] theorem vec3_smul_y (q : ℚ) (b : vec3) : (q • b).y = q * b.y := rfl
@[simp] theorem vec3_smul_z (q : ℚ) (b : vec3) : (q • b).z = q * b.z := rfl
@[simp] theorem vec3_divs_x (v : vec3) (t : ℚ) : (v.divs t).x = v.x / t := rfl
@[simp] theorem vec3_divs_y (v : vec3) (t : ℚ) : (v.divs t).y = v.y / t := rfl
@[simp] theorem vec3_divs_z (v : vec3) (t : ℚ) : (v.divs t).z = v.z / t := rfl

theorem vec3_eq_iff (a b : vec3) :
    a = b ↔ a.x = b.x ∧ a.y = b.y ∧ a.z = b.z := by
  cases a; cases b; simp

/-- Helper: `rayColorFuel` agrees with `ray_color` whenever the fuel
exceeds the (non-negative part of the) depth: each recursive call decreases
the depth by exactly one, so `depth.toNat + 1` fuel always suffices. -/
theorem rayColorFuel_agrees (P : MathPrims) (cam : camera) (world : hittable) :
    ∀ (fuel : ℕ) (r : ray) (depth : ℤ) (g : ℕ), depth.toNat < fuel →
      rayColorFuel P cam world fuel r depth g =
        some (ray_color P cam world r depth g) := by
  intro fuel
  induction fuel with
  | zero => intro r depth g h; omega
  | succ fuel ih =>
    intro r depth g h
    rw [rayColorFuel, ray_color]
    by_cases hd : depth ≤ 0
    · simp [hd]
    · simp only [if_neg hd]
      cases hhit : hittable.hit P world r ⟨1 / 1000, .inf⟩ with
      | none => simp
      | some rec =>
        simp only []
        cases hsh : cam.enable_shadows with
        | false => simp
        | true =>
          simp only [if_pos rfl]
          rcases hsc : material.scatter P rec.mat r rec g with ⟨o, g1⟩
          cases o with
          | none => simp
          | some pr =>
            rcases pr with ⟨attenuation, scattered⟩
            cases hrr : cam.enable_reflections || cam.enable_refractions with
            | false => simp
            | true =>
              simp only [if_pos rfl]
              rw [ih scattered (depth - 1) g1 (by omega)]
              simp

/-- C7 (amended): `camera::initialize` derives
`image_height = max 1 ⌊image_width / aspect_ratio⌋` (the truncated quotient
floored at 1), so the derived image height is always at least 1; the
claim's further assertion that `image_width ≤ 0` or `max_depth ≤ 0` are
rejected or clamped is refuted by `c7_counterexample`. -/
theorem c7_height_clamped (P : MathPrims) (cam : camera) :
    (initCam P cam).image_height =
      max 1 ⌊(cam.image_width : ℚ) / cam.aspect⌋ ∧
    1 ≤ (initCam P cam).image_height := by
  have h1 : (initCam P cam).image_height =
      if truncQ ((cam.image_width : ℚ) / cam.aspect) < 1 then 1
      else truncQ ((cam.image_width : ℚ) / cam.aspect) := rfl
  rw [h1]
  set q : ℚ := (cam.image_width : ℚ) / cam.aspect with hqdef
  have hfc : ⌊q⌋ ≤ ⌈q⌉ := Int.floor_le_ceil q
  unfold truncQ
  by_cases hneg : q < 0
  · have hc : ⌈q⌉ ≤ 0 := Int.ceil_le.mpr (by exact_mod_cast hneg.le)
    simp only [if_pos hneg]
    constructor
    · split <;> omega
    · split <;> omega
  · simp only [if_neg hneg]
    constructor
    · split <;> omega
    · split <;> omega

/-- C7 (counterexample): a configuration with `image_width = 0` is neither
rejected nor clamped: after initialization the width is still non-positive
(only the height was clamped to 1), and the render loop nevertheless starts
— its first row iteration executes (two stop-flag loads are consumed: the
row-start poll and the final one), rendering zero pixels. -/
theorem c7_counterexample :
    camZ.image_width ≤ 0 ∧
    (initCam Pid camZ).image_height = 1 ∧
    (render_to_buffer_with_progress ctxZ (fun _ => false) (fun _ => 0) 0).pollIdx
      = 2 ∧
    (render_to_buffer_with_progress ctxZ (fun _ => false) (fun _ => 0) 0).completed
      = 0 := by
  have ht : Int.tdiv 1 20 = 0 := by decide
  have hm : Int.tmod 0 1 = 0 := by decide
  refine ⟨by norm_num [camZ, camBase], ?_, ?_, ?_⟩ <;>
    norm_num [render_to_buffer_with_progress, rowLoop, pixelLoop,
      RenderCtx.dc, initCam, truncQ, ctxZ, camZ, camBase, Pid, ht, hm]

/-- C8: `ray_color` terminates for every ray, scene and integer depth:
the fuel-indexed variant, given `depth.toNat + 1` units of fuel, never
exhausts its fuel and agrees with `ray_color` (each recursive call
decreases the depth by exactly 1, so the recursion depth is bounded by the
initial depth), and any depth ≤ 0 returns black without recursing. -/
theorem c8_depth_bounded (P : MathPrims) (cam : camera) (world : hittable)
    (r : ray) (depth : ℤ) (g : ℕ) :
    rayColorFuel P cam world (depth.toNat + 1) r depth g =
      some (ray_color P cam world r depth g) ∧
    (depth ≤ 0 → ray_color P cam world r depth g = (⟨0, 0, 0⟩, g)) := by
  refine ⟨rayColorFuel_agrees P cam world _ r depth g (by omega), fun h => ?_⟩
  rw [ray_color]
  simp [h]

/-- C8 (witness): the termination bound evaluated at depth 0 on the tiny
scene. -/
theorem c8_witness :
    rayColorFuel Pid camBase worldEmpty 1 ⟨⟨0, 0, 0⟩, ⟨0, 0, -1⟩⟩ 0 7 =
      some (ray_color Pid camBase worldEmpty ⟨⟨0, 0, 0⟩, ⟨0, 0, -1⟩⟩ 0 7) ∧
    ray_color Pid camBase worldEmpty ⟨⟨0, 0, 0⟩, ⟨0, 0, -1⟩⟩ 0 7 =
      (⟨0, 0, 0⟩, 7) :=
  ⟨(c8_depth_bounded Pid camBase worldEmpty ⟨⟨0, 0, 0⟩, ⟨0, 0, -1⟩⟩ 0 7).1,
   (c8_depth_bounded Pid camBase worldEmpty ⟨⟨0, 0, 0⟩, ⟨0, 0, -1⟩⟩ 0 7).2
     (by norm_num)⟩

/-- C1: for a ray that hits the scene at depth > 0, `ray_color` dispatches
exactly as claimed: black when the shadows toggle is off; black when the
material's scatter rejects; `attenuation * ray_color(scattered, depth-1)`
when scatter succeeds and reflections or refractions are enabled; and the
non-recursive local shading term
`(0.3 + 0.7 * max 0 (dot normal (unit_vector (1,1,1)))) * attenuation`
(whose value does not involve any recursive call) when both are disabled. -/
theorem c1_hit_dispatch (P : MathPrims) (cam : camera) (world : hittable)
    (r : ray) (depth : ℤ) (g : ℕ) (rec : hit_record)
    (hd : 0 < depth)
    (hhit : hittable.hit P world r ⟨1 / 1000, .inf⟩ = some rec) :
    ray_color P cam world r depth g =
      (if cam.enable_shadows = false then ((⟨0, 0, 0⟩ : vec3), g)
       else
         match material.scatter P rec.mat r rec g with
         | (none, g1) => ((⟨0, 0, 0⟩ : vec3), g1)
         | (some (attenuation, scattered), g1) =>
           if cam.enable_reflections || cam.enable_refractions then
             (attenuation * (ray_color P cam world scattered (depth - 1) g1).1,
              (ray_color P cam world scattered (depth - 1) g1).2)
           else
             ((3 / 10 + 7 / 10 *
                 max 0 (dot rec.normal (unit_vector P.sqrt ⟨1, 1, 1⟩))) •
               attenuation, g1)) := by
  rw [ray_color]
  simp only [if_neg (by omega : ¬ depth ≤ 0), hhit]
  by_cases hsh : cam.enable_shadows = false
  · simp [hsh]
  · have hsh' : cam.enable_shadows = true := by
      revert hsh; cases cam.enable_shadows <;> simp
    rcases hsc : material.scatter P rec.mat r rec g with ⟨o, g1⟩
    cases o with
    | none => simp [hsh', hsc]
    | some pr =>
      rcases pr with ⟨attenuation, scattered⟩
      cases hrr : cam.enable_reflections || cam.enable_refractions <;>
        simp [hsh', hsc, hrr]

/-- C5: a ray that hits nothing resolves, at any depth > 0, to the
background gradient `(1-a) * (1,1,1) + a * (0.5,0.7,1)` with
`a = 0.5 * (unit_direction.y + 1)`. -/
theorem c5_background (P : MathPrims) (cam : camera) (world : hittable)
    (r : ray) (depth : ℤ) (g : ℕ)
    (hd : 0 < depth)
    (hmiss : hittable.hit P world r ⟨1 / 1000, .inf⟩ = none) :
    ray_color P cam world r depth g =
      ((1 - 1 / 2 * ((unit_vector P.sqrt r.direction).y + 1)) •
          (⟨1, 1, 1⟩ : vec3) +
        (1 / 2 * ((unit_vector P.sqrt r.direction).y + 1)) •
          (⟨1 / 2, 7 / 10, 1⟩ : vec3), g) := by
  rw [ray_color]
  simp only [if_neg (by omega : ¬ depth ≤ 0), hmiss]

/-- C1 (witness): the dispatch theorem applied at depth 1 to an axial ray
hitting `worldSphere` with shadows and reflections enabled: the Lambertian
scatters, the recursive branch is taken, and the depth-0 recursive call
yields black (so the product is black), with the generator advanced by the
scatter's three draws. -/
theorem c1_witness :
    (0 : ℤ) < 1 ∧
    hittable.hit Pid worldSphere ⟨⟨0, 0, 0⟩, ⟨0, 0, -1⟩⟩ ⟨1 / 1000, .inf⟩ =
      some rec1 ∧
    ray_color Pid camBase worldSphere ⟨⟨0, 0, 0⟩, ⟨0, 0, -1⟩⟩ 1 0 =
      ((⟨0, 0, 0⟩ : vec3), 31223) := by
  have hhit : hittable.hit Pid worldSphere ⟨⟨0, 0, 0⟩, ⟨0, 0, -1⟩⟩
      ⟨1 / 1000, .inf⟩ = some rec1 := by
    rw [hittable.hit.eq_def]
    norm_num [interval.surrounds, QInf.gtq, ray.at, dot, vec3.length_squared,
      vec3.divs, Pid, worldSphere, rec1, hit_record.mk.injEq, vec3_eq_iff]
  refine ⟨by norm_num, hhit, ?_⟩
  rw [c1_hit_dispatch Pid camBase worldSphere ⟨⟨0, 0, 0⟩, ⟨0, 0, -1⟩⟩ 1 0 rec1
    (by norm_num) hhit]
  have h2 : (material.scatter Pid rec1.mat ⟨⟨0, 0, 0⟩, ⟨0, 0, -1⟩⟩ rec1 0).2
      = 31223 := by
    norm_num [material.scatter, rec1, random_unit_vector, random_double,
      rngStep]
  rcases hsc : material.scatter Pid rec1.mat ⟨⟨0, 0, 0⟩, ⟨0, 0, -1⟩⟩ rec1 0
    with ⟨o, g1⟩
  rw [hsc] at h2
  simp only at h2
  subst h2
  have ht : (camBase.enable_reflections || camBase.enable_refractions)
      = true := by norm_num [camBase]
  have hsh : camBase.enable_shadows = true := by norm_num [camBase]
  cases o with
  | none => simp [hsc, hsh]
  | some pr =>
    rcases pr with ⟨attenuation, scattered⟩
    have hz : ray_color Pid camBase worldSphere scattered 0 31223 =
        (⟨0, 0, 0⟩, 31223) := by
      rw [ray_color]; norm_num
    simp [hsc, ht, hsh, hz, vec3_eq_iff]

/-- C5 (witness): the background theorem applied to a straight-up ray on
the empty scene: the unit direction's y-component is 1, so `a = 1` and the
result is the pure sky blue `(0.5, 0.7, 1)`. -/
theorem c5_witness :
    (0 : ℤ) < 1 ∧
    hittable.hit Pid worldEmpty ⟨⟨0, 0, 0⟩, ⟨0, 1, 0⟩⟩ ⟨1 / 1000, .inf⟩ =
      none ∧
    ray_color Pid camBase worldEmpty ⟨⟨0, 0, 0⟩, ⟨0, 1, 0⟩⟩ 1 5 =
      ((⟨1 / 2, 7 / 10, 1⟩ : vec3), 5) := by
  have hmiss : hittable.hit Pid worldEmpty ⟨⟨0, 0, 0⟩, ⟨0, 1, 0⟩⟩
      ⟨1 / 1000, .inf⟩ = none := by
    rw [hittable.hit.eq_def]
    simp [worldEmpty, hitMany.eq_def]
  refine ⟨by norm_num, hmiss, ?_⟩
  rw [c5_background Pid camBase worldEmpty ⟨⟨0, 0, 0⟩, ⟨0, 1, 0⟩⟩ 1 5
    (by norm_num) hmiss]
  norm_num [unit_vector, vec3.length_squared, vec3.divs, Pid, Prod.ext_iff,
    vec3_eq_iff]

/-- The derived image height is always at least 1. -/
theorem initCam_height_pos (P : MathPrims) (cam : camera) :
    1 ≤ (initCam P cam).image_height := by
  have h1 : (initCam P cam).image_height =
      if truncQ ((cam.image_width : ℚ) / cam.aspect) < 1 then 1
      else truncQ ((cam.image_width : ℚ) / cam.aspect) := rfl
  rw [h1]; split <;> omega

/-- The size of the cleared buffer is three bytes per pixel. -/
theorem bufLen_eq (ctx : RenderCtx) :
    (ctx.cam.image_width * ctx.dc.image_height * 3).toNat
      = 3 * (ctx.cam.image_width.toNat * ctx.dc.image_height.toNat) := by
  have hh : 1 ≤ ctx.dc.image_height := initCam_height_pos ctx.P ctx.cam
  rcases le_or_lt 0 ctx.cam.image_width with hw | hw
  · obtain ⟨W, hW⟩ := Int.eq_ofNat_of_zero_le hw
    obtain ⟨H, hH⟩ := Int.eq_ofNat_of_zero_le (by omega : (0:ℤ) ≤ ctx.dc.image_height)
    rw [hW, hH]
    rw [show ((W : ℤ) * (H : ℤ) * 3) = ((W * H * 3 : ℕ) : ℤ) by push_cast; ring]
    rw [Int.toNat_ofNat, Int.toNat_ofNat, Int.toNat_ofNat]
    ring
  · have h1 : ctx.cam.image_width * ctx.dc.image_height ≤ 0 :=
      mul_nonpos_iff.mpr (Or.inr ⟨hw.le, by omega⟩)
    have h2 : ctx.cam.image_width * ctx.dc.image_height * 3 ≤ 0 := by nlinarith
    rw [Int.toNat_of_nonpos h2, Int.toNat_of_nonpos hw.le]
    simp

theorem getD_set_self (l : List ℤ) (i : ℕ) (v : ℤ) (h : i < l.length) :
    (l.set i v).getD i 0 = v := by
  rw [List.getD_eq_getElem?_getD, List.getElem?_set_eq_of_lt v h]
  rfl

theorem getD_set_other (l : List ℤ) (i j : ℕ) (v : ℤ) (h : i ≠ j) :
    (l.set i v).getD j 0 = l.getD j 0 := by
  rw [List.getD_eq_getElem?_getD, List.getElem?_set_ne h,
    ← List.getD_eq_getElem?_getD]

theorem getD_replicate_zero (n i : ℕ) :
    (List.replicate n (0 : ℤ)).getD i 0 = 0 := by
  rw [List.getD_eq_getElem?_getD, List.getElem?_replicate]
  split <;> rfl

/-- Behaviour of the per-pixel sample loop: the poll index advances by at
most the sample count; if a poll observed the stop flag the observation is
recorded in the consumed range; and if no poll observed it, the loop
performed exactly the reference sample accumulation `pixelSum`. -/
theorem sampleLoop_spec (ctx : RenderCtx) (stop : ℕ → Bool) (i j : ℤ) :
    ∀ (fuel : ℕ) (acc : vec3) (g poll : ℕ),
      ∃ acc' g' poll' obs,
        sampleLoop ctx stop i j fuel acc g poll = (acc', g', poll', obs) ∧
        poll ≤ poll' ∧ poll' ≤ poll + fuel ∧
        (obs = true → ∃ m, poll ≤ m ∧ m < poll' ∧ stop m = true) ∧
        (obs = false → poll' = poll + fuel ∧
          acc' = (pixelSum ctx i j fuel acc g).1 ∧
          g' = (pixelSum ctx i j fuel acc g).2) := by
  intro fuel
  induction fuel with
  | zero =>
    intro acc g poll
    exact ⟨acc, g, poll, false, rfl, le_refl _, by omega, by simp,
      fun _ => ⟨rfl, rfl, rfl⟩⟩
  | succ fuel ih =>
    intro acc g poll
    rw [sampleLoop]
    cases hstop : stop poll with
    | true =>
      refine ⟨acc, g, poll + 1, true, by simp [hstop], by omega, by omega,
        fun _ => ⟨poll, le_refl _, by omega, hstop⟩, by simp⟩
    | false =>
      simp only [hstop, Bool.false_eq_true, ite_false]
      obtain ⟨acc', g', poll', obs, heq, h1, h2, h3, h4⟩ :=
        ih (acc + (ray_color ctx.P ctx.cam ctx.world
              (get_ray ctx.cam ctx.dc i j g).1 ctx.cam.max_depth
              (get_ray ctx.cam ctx.dc i j g).2).1)
          (ray_color ctx.P ctx.cam ctx.world
              (get_ray ctx.cam ctx.dc i j g).1 ctx.cam.max_depth
              (get_ray ctx.cam ctx.dc i j g).2).2
          (poll + 1)
      refine ⟨acc', g', poll', obs, ?_, by omega, by omega, ?_, ?_⟩
      · rw [← heq]
      · intro hobs
        obtain ⟨m, hm1, hm2, hm3⟩ := h3 hobs
        exact ⟨m, by omega, hm2, hm3⟩
      · intro hobs
        obtain ⟨hp, ha, hg⟩ := h4 hobs
        refine ⟨by omega, ?_, ?_⟩
        · rw [ha, pixelSum]
        · rw [hg, pixelSum]

/-- Reading back a three-byte pixel write. -/
theorem getD_write3 (l : List ℤ) (base : ℕ) (r g bb : ℤ)
    (h : base + 2 < l.length) :
    ((((l.set base r).set (base + 1) g).set (base + 2) bb).getD base 0 = r) ∧
    ((((l.set base r).set (base + 1) g).set (base + 2) bb).getD (base + 1) 0
      = g) ∧
    ((((l.set base r).set (base + 1) g).set (base + 2) bb).getD (base + 2) 0
      = bb) ∧
    (∀ m, m ≠ base → m ≠ base + 1 → m ≠ base + 2 →
      (((l.set base r).set (base + 1) g).set (base + 2) bb).getD m 0
        = l.getD m 0) ∧
    (((l.set base r).set (base + 1) g).set (base + 2) bb).length
      = l.length := by
  have l1 : (l.set base r).length = l.length := List.length_set ..
  have l2 : ((l.set base r).set (base + 1) g).length = l.length := by
    rw [List.length_set, l1]
  refine ⟨?_, ?_, ?_, ?_, ?_⟩
  · rw [getD_set_other _ _ _ _ (by omega), getD_set_other _ _ _ _ (by omega),
      getD_set_self _ _ _ (by omega)]
  · rw [getD_set_other _ _ _ _ (by omega),
      getD_set_self _ _ _ (by omega)]
  · rw [getD_set_self _ _ _ (by omega)]
  · intro m h1 h2 h3
    rw [getD_set_other _ _ _ _ (Ne.symm h3), getD_set_other _ _ _ _ (Ne.symm h2),
      getD_set_other _ _ _ _ (Ne.symm h1)]
  · rw [List.length_set, l2]

/-- Scaling by the reciprocal of the sample count is division by it. -/
theorem smul_one_div_eq_divs (v : vec3) (c : ℚ) : (1 / c) • v = v.divs c := by
  cases v
  simp [vec3.divs, vec3_eq_iff, inv_mul_eq_div]

/-- Row-major index arithmetic for a pixel inside its row. -/
theorem pixel_index_mod_div (b a W : ℕ) (ha : a < W) :
    (b * W + a) % W = a ∧ (b * W + a) / W = b := by
  constructor
  · rw [Nat.add_comm, Nat.mul_comm, Nat.add_mul_mod_self_left,
      Nat.mod_eq_of_lt ha]
  · rw [Nat.add_comm, Nat.mul_comm, Nat.add_mul_div_left _ _ (by omega : 0 < W),
      Nat.div_eq_of_lt ha]
    omega

theorem pixelLoop_spec (ctx : RenderCtx) (stop : ℕ → Bool) (clock : ℕ → ℤ)
    (seed : ℕ)
    (hmono : ∀ m1 m2, m1 ≤ m2 → stop m1 = true → stop m2 = true)
    (b : ℕ) (hb : b < ctx.dc.image_height.toNat) :
    ∀ (fuel a : ℕ) (st : RState),
      a + fuel = ctx.cam.image_width.toNat →
      RInv ctx stop seed (b * ctx.cam.image_width.toNat + a) st →
      st.halted = false →
      ∃ k',
        b * ctx.cam.image_width.toNat + a ≤ k' ∧
        k' ≤ b * ctx.cam.image_width.toNat + ctx.cam.image_width.toNat ∧
        RInv ctx stop seed k' (pixelLoop ctx stop clock b fuel a st) ∧
        ((pixelLoop ctx stop clock b fuel a st).halted = false →
          k' = b * ctx.cam.image_width.toNat + ctx.cam.image_width.toNat) ∧
        ((pixelLoop ctx stop clock b fuel a st).halted = true →
          k' < b * ctx.cam.image_width.toNat + ctx.cam.image_width.toNat) := by
  intro fuel
  induction fuel with
  | zero =>
    intro a st ha hInv hh
    refine ⟨b * ctx.cam.image_width.toNat + a, le_refl _, by omega, hInv,
      fun _ => by omega, fun hcontra => ?_⟩
    rw [show pixelLoop ctx stop clock b 0 a st = st from rfl] at hcontra
    rw [hh] at hcontra
    exact absurd hcontra (by simp)
  | succ fuel ih =>
    intro a st ha hInv hh
    obtain ⟨hcomp, hlen, hbytes, hzeros, htrace, hhlt, hrng⟩ := hInv
    rw [pixelLoop]
    cases hstop : stop st.pollIdx with
    | true =>
      simp only [ite_true]
      refine ⟨b * ctx.cam.image_width.toNat + a, le_refl _, by omega,
        ⟨hcomp, hlen, hbytes, hzeros, htrace,
         fun _ => ⟨st.pollIdx, by simp, hstop⟩, fun hcontra => by
           simp at hcontra⟩,
        fun hcontra => by simp at hcontra, fun _ => by omega⟩
    | false =>
      simp only [Bool.false_eq_true, ite_false]
      obtain ⟨acc', g', poll', obs, heq, hp1, hp2, hobs, hnobs⟩ :=
        sampleLoop_spec ctx stop (a : ℤ) (b : ℤ)
          (sampleCount ctx.cam).toNat ⟨0, 0, 0⟩ st.rng (st.pollIdx + 1)
      dsimp only
      rw [heq]
      dsimp only
      cases hstop2 : stop poll' with
      | true =>
        simp only [ite_true]
        refine ⟨b * ctx.cam.image_width.toNat + a, le_refl _, by omega,
          ⟨hcomp, hlen, hbytes, hzeros, htrace,
           fun _ => ⟨poll', by simp, hstop2⟩, fun hcontra => by
             simp at hcontra⟩,
          fun hcontra => by simp at hcontra, fun _ => by omega⟩
      | false =>
        simp only [Bool.false_eq_true, ite_false]
        have hobsf : obs = false := by
          cases obs with
          | false => rfl
          | true =>
            exfalso
            obtain ⟨m, hm1, hm2, hm3⟩ := hobs rfl
            have := hmono m poll' (by omega) hm3
            rw [hstop2] at this
            exact absurd this (by simp)
        subst hobsf
        obtain ⟨hpoll', hacc', hg'⟩ := hnobs rfl
        have haW : a < ctx.cam.image_width.toNat := by omega
        have hmd := pixel_index_mod_div b a ctx.cam.image_width.toNat haW
        have hkW : b * ctx.cam.image_width.toNat + a <
            ctx.cam.image_width.toNat * ctx.dc.image_height.toNat := by
          have h1 : (b + 1) * ctx.cam.image_width.toNat =
              b * ctx.cam.image_width.toNat + ctx.cam.image_width.toNat := by
            ring
          have h2 : (b + 1) * ctx.cam.image_width.toNat ≤
              ctx.dc.image_height.toNat * ctx.cam.image_width.toNat :=
            Nat.mul_le_mul_right _ (by omega)
          have h3 := Nat.mul_comm ctx.dc.image_height.toNat
            ctx.cam.image_width.toNat
          omega
        have hbase : (b * ctx.cam.image_width.toNat + a) * 3 + 2 <
            st.buffer.length := by
          rw [hlen, bufLen_eq]
          omega
        obtain ⟨w1, w2, w3, wother, wlen⟩ := getD_write3 st.buffer
          ((b * ctx.cam.image_width.toNat + a) * 3)
          (byteOf (linear_to_gamma ctx.P.sqrt
            ((1 / ((sampleCount ctx.cam : ℤ) : ℚ)) • acc').x))
          (byteOf (linear_to_gamma ctx.P.sqrt
            ((1 / ((sampleCount ctx.cam : ℤ) : ℚ)) • acc').y))
          (byteOf (linear_to_gamma ctx.P.sqrt
            ((1 / ((sampleCount ctx.cam : ℤ) : ℚ)) • acc').z)) hbase
        have href : refSum ctx seed (b * ctx.cam.image_width.toNat + a)
            = acc' := by
          simp only [refSum]
          rw [hmd.1, hmd.2, ← hrng hh, ← hacc']
        have hrngnext : rngSeq ctx seed (b * ctx.cam.image_width.toNat + a + 1)
            = g' := by
          simp only [rngSeq]
          rw [hmd.1, hmd.2, ← hrng hh, ← hg']
        refine Exists.imp (fun k' hk =>
          ⟨by omega, hk.2.1, hk.2.2.1, hk.2.2.2.1, hk.2.2.2.2⟩)
          (ih (a + 1) _ (by omega) ⟨?_, ?_, ?_, ?_, ?_, ?_, ?_⟩ ?_)
        · dsimp only
          omega
        · dsimp only
          rw [wlen, hlen]
        · dsimp only
          intro p c hp hc
          by_cases hpk : p < b * ctx.cam.image_width.toNat + a
          · rw [wother (3 * p + c) (by omega) (by omega) (by omega)]
            exact hbytes p c hpk hc
          · have hpe : p = b * ctx.cam.image_width.toNat + a := by omega
            subst hpe
            have hsm := smul_one_div_eq_divs acc' ((sampleCount ctx.cam : ℤ) : ℚ)
            interval_cases c
            · rw [show 3 * (b * ctx.cam.image_width.toNat + a) + 0 =
                  (b * ctx.cam.image_width.toNat + a) * 3 from by ring, w1]
              simp only [chan, refBytes, byteOf]
              rw [href, hsm]
            · rw [show 3 * (b * ctx.cam.image_width.toNat + a) + 1 =
                  (b * ctx.cam.image_width.toNat + a) * 3 + 1 from by ring, w2]
              simp only [chan, refBytes, byteOf]
              rw [href, hsm]
            · rw [show 3 * (b * ctx.cam.image_width.toNat + a) + 2 =
                  (b * ctx.cam.image_width.toNat + a) * 3 + 2 from by ring, w3]
              simp only [chan, refBytes, byteOf]
              rw [href, hsm]
        · dsimp only
          intro m hm
          rw [wother m (by omega) (by omega) (by omega)]
          exact hzeros m (by omega)
        · dsimp only
          rw [htrace, hcomp]
          rw [show b * ctx.cam.image_width.toNat + (a + 1) =
            (b * ctx.cam.image_width.toNat + a).succ from by omega]
          rw [List.range_succ, List.map_append]
          simp [progAt, Nat.succ_eq_add_one]
        · dsimp only
          intro hcontra
          rw [hh] at hcontra
          simp at hcontra
        · dsimp only
          intro _
          rw [show b * ctx.cam.image_width.toNat + (a + 1) =
            b * ctx.cam.image_width.toNat + a + 1 from by omega, hrngnext]
        · dsimp only
          rw [hh]
          simp

theorem rowLoop_spec (ctx : RenderCtx) (stop : ℕ → Bool) (clock : ℕ → ℤ)
    (seed : ℕ)
    (hmono : ∀ m1 m2, m1 ≤ m2 → stop m1 = true → stop m2 = true) :
    ∀ (fuel b : ℕ) (st : RState) (k : ℕ),
      b + fuel = ctx.dc.image_height.toNat →
      k ≤ ctx.dc.image_height.toNat * ctx.cam.image_width.toNat →
      RInv ctx stop seed k st →
      (st.halted = false → k = b * ctx.cam.image_width.toNat) →
      ∃ k',
        k ≤ k' ∧
        k' ≤ ctx.dc.image_height.toNat * ctx.cam.image_width.toNat ∧
        RInv ctx stop seed k' (rowLoop ctx stop clock fuel b st) ∧
        ((rowLoop ctx stop clock fuel b st).halted = false →
          k' = ctx.dc.image_height.toNat * ctx.cam.image_width.toNat) ∧
        (st.halted = true → k' = k) ∧
        (1 ≤ ctx.cam.image_width.toNat → st.halted = false →
          (rowLoop ctx stop clock fuel b st).halted = true →
          k' < ctx.dc.image_height.toNat * ctx.cam.image_width.toNat) := by
  intro fuel
  induction fuel with
  | zero =>
    intro b st k hfuel hkub hInv hk
    refine ⟨k, le_refl _, hkub, hInv, fun hhf => ?_, fun _ => rfl, fun _ hh0 hh1 => ?_⟩
    · rw [show rowLoop ctx stop clock 0 b st = st from rfl] at hhf
      rw [hk hhf, show b = ctx.dc.image_height.toNat from by omega]
    · rw [show rowLoop ctx stop clock 0 b st = st from rfl] at hh1
      rw [hh0] at hh1
      exact absurd hh1 (by simp)
  | succ fuel ih =>
    intro b st k hfuel hkub hInv hk
    obtain ⟨hcomp, hlen, hbytes, hzeros, htrace, hhlt, hrng⟩ := hInv
    rw [rowLoop]
    cases hstop : stop st.pollIdx with
    | true =>
      simp only [ite_true]
      have hbH : b < ctx.dc.image_height.toNat := by omega
      refine ⟨k, le_refl _, hkub,
        ⟨hcomp, hlen, hbytes, hzeros, htrace,
         fun _ => ⟨st.pollIdx, by simp, hstop⟩,
         fun hcontra => by simp at hcontra⟩,
        fun hcontra => by simp at hcontra,
        fun _ => rfl, fun hW hh0 _ => ?_⟩
      rw [hk hh0]
      calc b * ctx.cam.image_width.toNat
          < (b + 1) * ctx.cam.image_width.toNat := by
            have : (b + 1) * ctx.cam.image_width.toNat =
                b * ctx.cam.image_width.toNat + ctx.cam.image_width.toNat := by
              ring
            omega
        _ ≤ ctx.dc.image_height.toNat * ctx.cam.image_width.toNat :=
            Nat.mul_le_mul_right _ (by omega)
    | false =>
      simp only [Bool.false_eq_true, ite_false]
      have hsthal : st.halted = false := by
        cases hst : st.halted with
        | false => rfl
        | true =>
          exfalso
          obtain ⟨m, hm1, hm2⟩ := hhlt hst
          have := hmono m st.pollIdx (by omega) hm2
          rw [hstop] at this
          exact absurd this (by simp)
      have hkb : k = b * ctx.cam.image_width.toNat := hk hsthal
      subst hkb
      have hbH : b < ctx.dc.image_height.toNat := by omega
      obtain ⟨k1, hk1a, hk1b, hInv1, hfull1, hstrict1⟩ :=
        pixelLoop_spec ctx stop clock seed hmono b hbH
          ctx.cam.image_width.toNat 0
          { st with pollIdx := st.pollIdx + 1 } (by omega)
          (by
            refine ⟨hcomp.trans (by omega), hlen, ?_, hzeros, htrace,
              fun hcontra => ?_, fun _ => hrng hsthal⟩
            · intro p c hp hc
              exact hbytes p c (by omega) hc
            · rw [show ({ st with pollIdx := st.pollIdx + 1 } : RState).halted
                  = st.halted from rfl, hsthal] at hcontra
              exact absurd hcontra (by simp))
          (by rw [show ({ st with pollIdx := st.pollIdx + 1 } : RState).halted
                  = st.halted from rfl]; exact hsthal)
      set st1 := pixelLoop ctx stop clock b ctx.cam.image_width.toNat 0
        { st with pollIdx := st.pollIdx + 1 } with hst1def
      have hb1W : (b + 1) * ctx.cam.image_width.toNat =
          b * ctx.cam.image_width.toNat + ctx.cam.image_width.toNat := by ring
      have hb1H : (b + 1) * ctx.cam.image_width.toNat ≤
          ctx.dc.image_height.toNat * ctx.cam.image_width.toNat :=
        Nat.mul_le_mul_right _ (by omega)
      -- the row-end texture raise only touches the texTrace
      have hInv2 : ∀ st2 : RState,
          (st2.buffer = st1.buffer ∧ st2.rng = st1.rng ∧
           st2.completed = st1.completed ∧ st2.pollIdx = st1.pollIdx ∧
           st2.progressTrace = st1.progressTrace ∧ st2.halted = st1.halted) →
          RInv ctx stop seed k1 st2 := by
        intro st2 ⟨e1, e2, e3, e4, e5, e6⟩
        obtain ⟨i1, i2, i3, i4, i5, i6, i7⟩ := hInv1
        refine ⟨e3 ▸ i1, e1 ▸ i2, ?_, ?_, e5 ▸ i5, ?_, ?_⟩
        · intro p c hp hc
          rw [e1]
          exact i3 p c hp hc
        · intro m hm
          rw [e1]
          exact i4 m hm
        · intro hcontra
          rw [e6] at hcontra
          obtain ⟨m, hm1, hm2⟩ := i6 hcontra
          exact ⟨m, by omega, hm2⟩
        · intro hcontra
          rw [e6] at hcontra
          rw [e2]
          exact i7 hcontra
      obtain ⟨k'', hk2a, hk2b, hInv'', hfull'', hsame'', hstrict''⟩ :=
        ih (b + 1)
          (if Int.tmod (b : ℤ) (max 1 (Int.tdiv ctx.dc.image_height 20)) = 0
            then { st1 with texTrace := st1.texTrace ++
              [⟨false, b, clock st1.clockIdx, st1.lastUpdate,
                st1.sinceUpdate, st1.completed⟩] }
            else st1)
          k1 (by omega) (by omega)
          (by
            split
            · exact hInv2 _ ⟨rfl, rfl, rfl, rfl, rfl, rfl⟩
            · exact hInv2 _ ⟨rfl, rfl, rfl, rfl, rfl, rfl⟩)
          (by
            intro hhf
            have hhf1 : st1.halted = false := by
              revert hhf
              split <;> exact fun h => h
            rw [hfull1 hhf1]
            omega)
      refine ⟨k'', by omega, hk2b, hInv'', hfull'', fun hcontra => ?_, ?_⟩
      · rw [hsthal] at hcontra
        exact absurd hcontra (by simp)
      · intro hW _ hhend
        cases hst1h : st1.halted with
        | true =>
          have hs := hsame'' (by
            revert hst1h
            split <;> exact fun h => h)
          have := hstrict1 hst1h
          omega
        | false =>
          exact hstrict'' hW (by
            revert hst1h
            split <;> exact fun h => h) hhend

/-- The pixel-count form of `total_pixels`. -/
theorem totalPix_toNat (ctx : RenderCtx) :
    (totalPix ctx).toNat =
      ctx.cam.image_width.toNat * ctx.dc.image_height.toNat := by
  have hh : 1 ≤ ctx.dc.image_height := initCam_height_pos ctx.P ctx.cam
  rcases le_or_lt 0 ctx.cam.image_width with hw | hw
  · obtain ⟨W, hW⟩ := Int.eq_ofNat_of_zero_le hw
    obtain ⟨H, hH⟩ := Int.eq_ofNat_of_zero_le
      (by omega : (0:ℤ) ≤ ctx.dc.image_height)
    rw [totalPix, hW, hH,
      show ((W : ℤ) * (H : ℤ)) = ((W * H : ℕ) : ℤ) by push_cast; ring]
    rw [Int.toNat_ofNat, Int.toNat_ofNat, Int.toNat_ofNat]
  · have h1 : ctx.cam.image_width * ctx.dc.image_height ≤ 0 :=
      mul_nonpos_iff.mpr (Or.inr ⟨hw.le, by omega⟩)
    rw [totalPix, Int.toNat_of_nonpos h1, Int.toNat_of_nonpos hw.le]
    simp

/-- Row-major pixel indices are below the pixel count. -/
theorem rowmajor_lt (j i W H : ℕ) (hj : j < H) (hi : i < W) :
    j * W + i < H * W := by
  have h1 : (j + 1) * W = j * W + W := by ring
  have h2 : (j + 1) * W ≤ H * W := Nat.mul_le_mul_right _ (by omega)
  omega

/-- Bumping the poll index preserves the render invariant. -/
theorem RInv_bump (ctx : RenderCtx) (stop : ℕ → Bool) (seed k : ℕ)
    (st : RState) (h : RInv ctx stop seed k st) :
    RInv ctx stop seed k { st with pollIdx := st.pollIdx + 1 } := by
  obtain ⟨i1, i2, i3, i4, i5, i6, i7⟩ := h
  refine ⟨i1, i2, i3, i4, i5, fun hcontra => ?_, i7⟩
  obtain ⟨m, hm1, hm2⟩ := i6 hcontra
  exact ⟨m, by simp; omega, hm2⟩

/-- Characterisation of one invocation of
`render_to_buffer_with_progress` under a monotone (write-once) stop flag:
there is a completed-pixel count `k'` for which the invariant holds; an
uncancelled run completes all pixels, and a run whose loop observed the
stop flag completes strictly fewer. -/
theorem render_spec (ctx : RenderCtx) (stop : ℕ → Bool) (clock : ℕ → ℤ)
    (seed : ℕ)
    (hmono : ∀ m1 m2, m1 ≤ m2 → stop m1 = true → stop m2 = true) :
    ∃ k',
      k' ≤ ctx.dc.image_height.toNat * ctx.cam.image_width.toNat ∧
      RInv ctx stop seed k'
        (render_to_buffer_with_progress ctx stop clock seed) ∧
      ((render_to_buffer_with_progress ctx stop clock seed).halted = false →
        k' = ctx.dc.image_height.toNat * ctx.cam.image_width.toNat) ∧
      (1 ≤ ctx.cam.image_width.toNat →
        (render_to_buffer_with_progress ctx stop clock seed).halted = true →
        k' < ctx.dc.image_height.toNat * ctx.cam.image_width.toNat) := by
  have hInv0 : RInv ctx stop seed 0
      { buffer := List.replicate
          (ctx.cam.image_width * ctx.dc.image_height * 3).toNat 0,
        rng := seed, completed := 0, sinceUpdate := 0,
        lastUpdate := clock 0, pollIdx := 0, clockIdx := 1,
        progressTrace := [], texTrace := [], halted := false } := by
    refine ⟨rfl, List.length_replicate .., fun p c hp _ => absurd hp (by omega),
      fun m _ => getD_replicate_zero _ m, rfl,
      fun hcontra => absurd hcontra (by simp), fun _ => rfl⟩
  obtain ⟨k', h1, h2, hInv, hfull, _, hstrict⟩ :=
    rowLoop_spec ctx stop clock seed hmono ctx.dc.image_height.toNat 0 _ 0
      (by omega) (by omega) hInv0 (fun _ => by omega)
  exact ⟨k', h2, RInv_bump ctx stop seed k' _ hInv, hfull, fun hW hh =>
    hstrict hW rfl hh⟩

/-- C10: the legacy `render_to_buffer` entry point is exactly
`render_to_buffer_with_progress` invoked with a never-set stop flag and
inert progress / update sinks, and it always runs to completion: every
pixel is completed and no cancellation checkpoint ever observed a stop. -/
theorem c10_legacy_runs_to_completion (ctx : RenderCtx) (clock : ℕ → ℤ)
    (seed : ℕ) :
    render_to_buffer ctx clock seed =
      render_to_buffer_with_progress ctx (fun _ => false) clock seed ∧
    (render_to_buffer ctx clock seed).halted = false ∧
    (render_to_buffer ctx clock seed).completed = (totalPix ctx).toNat := by
  obtain ⟨k', hub, hInv, hfull, _⟩ :=
    render_spec ctx (fun _ => false) clock seed (fun _ _ _ h => h)
  have hhal : (render_to_buffer_with_progress ctx (fun _ => false) clock
      seed).halted = false := by
    cases hh : (render_to_buffer_with_progress ctx (fun _ => false) clock
        seed).halted with
    | false => rfl
    | true =>
      obtain ⟨m, _, hm⟩ := hInv.2.2.2.2.2.1 hh
      exact absurd hm (by simp)
  refine ⟨rfl, hhal, ?_⟩
  rw [show render_to_buffer ctx clock seed =
    render_to_buffer_with_progress ctx (fun _ => false) clock seed from rfl]
  rw [hInv.1, hfull hhal, totalPix_toNat, Nat.mul_comm]

/-- C3: in a completed render, the bytes of pixel `(i, j)` sit interleaved
at offsets `3 * (j * width + i) + {0,1,2}` of the `3 * width * height`
byte buffer and are, per channel, the floor of
`256 * clamp_[0,0.999] (linear_to_gamma (sum of sampled colors / sample
count))` — the reference pipeline `refBytes` computed from the sample sums
`refSum` at the threaded generator states `rngSeq`. -/
theorem c3_pixel_bytes (ctx : RenderCtx) (clock : ℕ → ℤ) (seed : ℕ)
    (i j c : ℕ)
    (hi : i < ctx.cam.image_width.toNat)
    (hj : j < ctx.dc.image_height.toNat)
    (hc : c < 3) :
    (render_to_buffer_with_progress ctx (fun _ => false) clock seed).buffer.length
      = (ctx.cam.image_width * ctx.dc.image_height * 3).toNat ∧
    (render_to_buffer_with_progress ctx (fun _ => false) clock
        seed).buffer.getD (3 * (j * ctx.cam.image_width.toNat + i) + c) 0
      = chan (refBytes ctx seed (j * ctx.cam.image_width.toNat + i)) c := by
  obtain ⟨k', hub, hInv, hfull, _⟩ :=
    render_spec ctx (fun _ => false) clock seed (fun _ _ _ h => h)
  have hhal : (render_to_buffer_with_progress ctx (fun _ => false) clock
      seed).halted = false := by
    cases hh : (render_to_buffer_with_progress ctx (fun _ => false) clock
        seed).halted with
    | false => rfl
    | true =>
      obtain ⟨m, _, hm⟩ := hInv.2.2.2.2.2.1 hh
      exact absurd hm (by simp)
  refine ⟨hInv.2.1, ?_⟩
  refine hInv.2.2.1 _ c ?_ hc
  rw [hfull hhal]
  have := rowmajor_lt j i ctx.cam.image_width.toNat
    ctx.dc.image_height.toNat hj hi
  omega

/-- C2: under a write-once (monotone) stop flag, if some cancellation
checkpoint of the loop observed the flag set, then: strictly fewer than all
pixels were completed; every pixel completed before the observation holds
exactly the bytes the uncancelled render would give it; every later pixel
position is still zeroed (no write happened after the observation); and
every value ever stored to the progress atomic is strictly below 1. -/
theorem c2_cooperative_cancellation (ctx : RenderCtx) (stop : ℕ → Bool)
    (clock : ℕ → ℤ) (seed : ℕ)
    (hmono : ∀ m1 m2, m1 ≤ m2 → stop m1 = true → stop m2 = true)
    (hW : 1 ≤ ctx.cam.image_width)
    (hhalt : (render_to_buffer_with_progress ctx stop clock seed).halted
      = true) :
    (render_to_buffer_with_progress ctx stop clock seed).completed
      < (totalPix ctx).toNat ∧
    (∀ p c, p < (render_to_buffer_with_progress ctx stop clock seed).completed
      → c < 3 →
      (render_to_buffer_with_progress ctx stop clock seed).buffer.getD
          (3 * p + c) 0 =
        (render_to_buffer_with_progress ctx (fun _ => false) clock
            seed).buffer.getD (3 * p + c) 0) ∧
    (∀ p c,
      (render_to_buffer_with_progress ctx stop clock seed).completed ≤ p →
      p < (totalPix ctx).toNat → c < 3 →
      (render_to_buffer_with_progress ctx stop clock seed).buffer.getD
        (3 * p + c) 0 = 0) ∧
    (∀ q ∈ (render_to_buffer_with_progress ctx stop clock
        seed).progressTrace, q < 1) := by
  have hWn : 1 ≤ ctx.cam.image_width.toNat := by omega
  obtain ⟨k', hub, hInv, hfull, hstrict⟩ :=
    render_spec ctx stop clock seed hmono
  obtain ⟨kf, hubf, hInvf, hfullf, _⟩ :=
    render_spec ctx (fun _ => false) clock seed (fun _ _ _ h => h)
  have hhalf : (render_to_buffer_with_progress ctx (fun _ => false) clock
      seed).halted = false := by
    cases hh : (render_to_buffer_with_progress ctx (fun _ => false) clock
        seed).halted with
    | false => rfl
    | true =>
      obtain ⟨m, _, hm⟩ := hInvf.2.2.2.2.2.1 hh
      exact absurd hm (by simp)
  have hkstrict : k' < ctx.dc.image_height.toNat * ctx.cam.image_width.toNat :=
    hstrict hWn hhalt
  have hcompk : (render_to_buffer_with_progress ctx stop clock
      seed).completed = k' := hInv.1
  have htotn : (totalPix ctx).toNat =
      ctx.cam.image_width.toNat * ctx.dc.image_height.toNat :=
    totalPix_toNat ctx
  have hcomm : ctx.cam.image_width.toNat * ctx.dc.image_height.toNat =
      ctx.dc.image_height.toNat * ctx.cam.image_width.toNat :=
    Nat.mul_comm _ _
  refine ⟨?_, ?_, ?_, ?_⟩
  · rw [hcompk, htotn, Nat.mul_comm]
    exact hkstrict
  · intro p c hp hc
    rw [hcompk] at hp
    rw [hInv.2.2.1 p c hp hc, hInvf.2.2.1 p c ?_ hc]
    rw [hfullf hhalf]
    omega
  · intro p c hp hptot hc
    rw [hcompk] at hp
    exact hInv.2.2.2.1 (3 * p + c) (by omega)
  · intro q hq
    rw [hInv.2.2.2.2.1] at hq
    obtain ⟨t, ht, rfl⟩ := List.mem_map.mp hq
    rw [List.mem_range] at ht
    have htk : t + 1 < (totalPix ctx).toNat := by omega
    have htot0 : (0 : ℤ) < totalPix ctx := by omega
    have hcast : ((t + 1 : ℕ) : ℚ) < ((totalPix ctx : ℤ) : ℚ) := by
      have h1 : ((t + 1 : ℕ) : ℤ) < totalPix ctx := by omega
      exact_mod_cast h1
    have hT : (0 : ℚ) < ((totalPix ctx : ℤ) : ℚ) := by exact_mod_cast htot0
    rw [progAt, div_lt_one hT]
    exact hcast

/-- C6: the values stored to the progress atomic during one render
invocation (under a write-once stop flag) are exactly
`(k+1) / total_pixels` for `k` below the completed-pixel count in order,
hence monotonically non-decreasing, and the value 1 is stored exactly when
the last pixel completes. -/
theorem c6_progress_stores (ctx : RenderCtx) (stop : ℕ → Bool)
    (clock : ℕ → ℤ) (seed : ℕ)
    (hmono : ∀ m1 m2, m1 ≤ m2 → stop m1 = true → stop m2 = true) :
    (render_to_buffer_with_progress ctx stop clock seed).progressTrace =
      (List.range (render_to_buffer_with_progress ctx stop clock
        seed).completed).map (progAt ctx) ∧
    List.Pairwise (· ≤ ·)
      (render_to_buffer_with_progress ctx stop clock seed).progressTrace ∧
    ((1 : ℚ) ∈ (render_to_buffer_with_progress ctx stop clock
        seed).progressTrace ↔
      ((render_to_buffer_with_progress ctx stop clock seed).completed
          = (totalPix ctx).toNat ∧ 1 ≤ totalPix ctx)) := by
  obtain ⟨k', hub, hInv, hfull, hstrict⟩ :=
    render_spec ctx stop clock seed hmono
  have htotn : (totalPix ctx).toNat =
      ctx.cam.image_width.toNat * ctx.dc.image_height.toNat :=
    totalPix_toNat ctx
  have hcomm : ctx.cam.image_width.toNat * ctx.dc.image_height.toNat =
      ctx.dc.image_height.toNat * ctx.cam.image_width.toNat :=
    Nat.mul_comm _ _
  have htr : (render_to_buffer_with_progress ctx stop clock
      seed).progressTrace = (List.range k').map (progAt ctx) :=
    hInv.2.2.2.2.1
  have hcompk : (render_to_buffer_with_progress ctx stop clock
      seed).completed = k' := hInv.1
  refine ⟨by rw [htr, hcompk], ?_, ?_⟩
  · rw [htr]
    rcases le_or_lt (totalPix ctx) 0 with hT | hT
    · have hk0 : k' = 0 := by omega
      subst hk0
      simp
    · have hTQ : (0 : ℚ) < ((totalPix ctx : ℤ) : ℚ) := by exact_mod_cast hT
      refine List.Pairwise.map _ ?_ (List.pairwise_lt_range k')
      intro a b hab
      rw [progAt, progAt, div_le_div_iff_of_pos_right hTQ]
      have : ((a + 1 : ℕ) : ℚ) ≤ ((b + 1 : ℕ) : ℚ) := by exact_mod_cast
        (by omega : a + 1 ≤ b + 1)
      exact this
  · rw [htr, hcompk]
    constructor
    · intro hmem
      obtain ⟨t, ht, hteq⟩ := List.mem_map.mp hmem
      rw [List.mem_range] at ht
      rcases le_or_lt (totalPix ctx) 0 with hT | hT
      · exfalso
        have hk0 : k' = 0 := by omega
        omega
      · have hTQ : (0 : ℚ) < ((totalPix ctx : ℤ) : ℚ) := by exact_mod_cast hT
        rw [progAt, div_eq_one_iff_eq (by positivity)] at hteq
        have ht1 : ((t + 1 : ℕ) : ℤ) = totalPix ctx := by exact_mod_cast hteq
        constructor
        · omega
        · omega
    · rintro ⟨hcomp, hT⟩
      have hk' : k' = (totalPix ctx).toNat := hcomp
      have hkpos : 1 ≤ k' := by omega
      refine List.mem_map.mpr ⟨k' - 1, List.mem_range.mpr (by omega), ?_⟩
      rw [progAt]
      have h1 : ((k' - 1 + 1 : ℕ) : ℤ) = totalPix ctx := by omega
      have h2 : ((k' - 1 + 1 : ℕ) : ℚ) = ((totalPix ctx : ℤ) : ℚ) := by
        exact_mod_cast h1
      rw [h2]
      have hTQ : ((totalPix ctx : ℤ) : ℚ) ≠ 0 := by
        have : (0 : ℤ) < totalPix ctx := hT
        positivity
      exact div_self hTQ

/-- The clock stream influences only the texture-update throttling state
(`sinceUpdate`, `lastUpdate`, `clockIdx`, `texTrace`): the pixel loop run
with two different clocks from states agreeing on buffer, generator,
counters, poll position, progress trace and halted flag keeps those
components equal. -/
theorem pixelLoop_clock (ctx : RenderCtx) (stop : ℕ → Bool)
    (clock1 clock2 : ℕ → ℤ) (j : ℕ) :
    ∀ (fuel i : ℕ) (st1 st2 : RState),
      st1.buffer = st2.buffer → st1.rng = st2.rng →
      st1.completed = st2.completed → st1.pollIdx = st2.pollIdx →
      st1.progressTrace = st2.progressTrace → st1.halted = st2.halted →
      (pixelLoop ctx stop clock1 j fuel i st1).buffer =
        (pixelLoop ctx stop clock2 j fuel i st2).buffer ∧
      (pixelLoop ctx stop clock1 j fuel i st1).rng =
        (pixelLoop ctx stop clock2 j fuel i st2).rng ∧
      (pixelLoop ctx stop clock1 j fuel i st1).completed =
        (pixelLoop ctx stop clock2 j fuel i st2).completed ∧
      (pixelLoop ctx stop clock1 j fuel i st1).pollIdx =
        (pixelLoop ctx stop clock2 j fuel i st2).pollIdx ∧
      (pixelLoop ctx stop clock1 j fuel i st1).progressTrace =
        (pixelLoop ctx stop clock2 j fuel i st2).progressTrace ∧
      (pixelLoop ctx stop clock1 j fuel i st1).halted =
        (pixelLoop ctx stop clock2 j fuel i st2).halted := by
  intro fuel
  induction fuel with
  | zero =>
    intro i st1 st2 e1 e2 e3 e4 e5 e6
    exact ⟨e1, e2, e3, e4, e5, e6⟩
  | succ fuel ih =>
    intro i st1 st2 e1 e2 e3 e4 e5 e6
    rw [pixelLoop, pixelLoop, ← e4]
    cases hstop : stop st1.pollIdx with
    | true =>
      simp only [ite_true]
      exact ⟨e1, e2, e3, trivial, e5, trivial⟩
    | false =>
      simp only [Bool.false_eq_true, ite_false]
      dsimp only
      rw [← e2]
      rcases hsl : sampleLoop ctx stop (i : ℤ) (j : ℤ)
        (sampleCount ctx.cam).toNat ⟨0, 0, 0⟩ st1.rng (st1.pollIdx + 1)
        with ⟨acc, g1, poll1, obs⟩
      dsimp only
      cases hstop2 : stop poll1 with
      | true =>
        simp only [ite_true]
        exact ⟨e1, trivial, e3, trivial, e5, trivial⟩
      | false =>
        simp only [Bool.false_eq_true, ite_false]
        exact ih (i + 1) _ _ (by dsimp only; rw [e1]) rfl
          (by dsimp only; rw [e3]) rfl
          (by dsimp only; rw [e5, e3]) (by dsimp only; rw [e6])

/-- Clock-stream irrelevance of the row loop for the same components. -/
theorem rowLoop_clock (ctx : RenderCtx) (stop : ℕ → Bool)
    (clock1 clock2 : ℕ → ℤ) :
    ∀ (fuel j : ℕ) (st1 st2 : RState),
      st1.buffer = st2.buffer → st1.rng = st2.rng →
      st1.completed = st2.completed → st1.pollIdx = st2.pollIdx →
      st1.progressTrace = st2.progressTrace → st1.halted = st2.halted →
      (rowLoop ctx stop clock1 fuel j st1).buffer =
        (rowLoop ctx stop clock2 fuel j st2).buffer ∧
      (rowLoop ctx stop clock1 fuel j st1).rng =
        (rowLoop ctx stop clock2 fuel j st2).rng ∧
      (rowLoop ctx stop clock1 fuel j st1).completed =
        (rowLoop ctx stop clock2 fuel j st2).completed ∧
      (rowLoop ctx stop clock1 fuel j st1).pollIdx =
        (rowLoop ctx stop clock2 fuel j st2).pollIdx ∧
      (rowLoop ctx stop clock1 fuel j st1).progressTrace =
        (rowLoop ctx stop clock2 fuel j st2).progressTrace ∧
      (rowLoop ctx stop clock1 fuel j st1).halted =
        (rowLoop ctx stop clock2 fuel j st2).halted := by
  intro fuel
  induction fuel with
  | zero =>
    intro j st1 st2 e1 e2 e3 e4 e5 e6
    exact ⟨e1, e2, e3, e4, e5, e6⟩
  | succ fuel ih =>
    intro j st1 st2 e1 e2 e3 e4 e5 e6
    rw [rowLoop, rowLoop, ← e4]
    cases hstop : stop st1.pollIdx with
    | true =>
      simp only [ite_true]
      exact ⟨e1, e2, e3, trivial, e5, trivial⟩
    | false =>
      simp only [Bool.false_eq_true, ite_false]
      obtain ⟨p1, p2, p3, p4, p5, p6⟩ :=
        pixelLoop_clock ctx stop clock1 clock2 j
          ctx.cam.image_width.toNat 0
          { st1 with pollIdx := st1.pollIdx + 1 }
          { st2 with pollIdx := st1.pollIdx + 1 }
          e1 e2 e3 rfl e5 e6
      by_cases hj : Int.tmod (j : ℤ)
          (max 1 (Int.tdiv ctx.dc.image_height 20)) = 0
      · simp only [if_pos hj]
        exact ih (j + 1) _ _ p1 p2 p3 p4 p5 p6
      · simp only [if_neg hj]
        exact ih (j + 1) _ _ p1 p2 p3 p4 p5 p6

/-- The pixel buffer produced by one invocation of
`render_to_buffer_with_progress` does not depend on the clock stream. -/
theorem render_buffer_clock_irrelevant (ctx : RenderCtx) (stop : ℕ → Bool)
    (clock1 clock2 : ℕ → ℤ) (seed : ℕ) :
    (render_to_buffer_with_progress ctx stop clock1 seed).buffer =
      (render_to_buffer_with_progress ctx stop clock2 seed).buffer := by
  unfold render_to_buffer_with_progress
  dsimp only
  exact (rowLoop_clock ctx stop clock1 clock2 ctx.dc.image_height.toNat 0
    { buffer := List.replicate
        (ctx.cam.image_width * ctx.dc.image_height * 3).toNat 0,
      rng := seed, completed := 0, sinceUpdate := 0,
      lastUpdate := clock1 0, pollIdx := 0, clockIdx := 1,
      progressTrace := [], texTrace := [], halted := false }
    { buffer := List.replicate
        (ctx.cam.image_width * ctx.dc.image_height * 3).toNat 0,
      rng := seed, completed := 0, sinceUpdate := 0,
      lastUpdate := clock2 0, pollIdx := 0, clockIdx := 1,
      progressTrace := [], texTrace := [], halted := false }
    rfl rfl rfl rfl rfl rfl).1

/-- C9: for the fixed spec scenario — a large ground sphere and one colored
diffuse sphere, a 20-wide image at 16:9 (so 20×11), one sample per pixel,
depth 1, antialiasing disabled — two uncancelled runs with the same seed
produce byte-for-byte identical pixel buffers, whatever the wall-clock
streams of the two runs were: the buffer is a deterministic function of
configuration, scene and seed. -/
theorem c9_seed_determinism (P : MathPrims) (seed : ℕ)
    (clock1 clock2 : ℕ → ℤ) :
    (render_to_buffer_with_progress (ctx9 P) (fun _ => false) clock1
        seed).buffer =
      (render_to_buffer_with_progress (ctx9 P) (fun _ => false) clock2
        seed).buffer :=
  render_buffer_clock_irrelevant (ctx9 P) (fun _ => false) clock1 clock2 seed

theorem dcTiny : ctxTiny.dc = dcT := by
  norm_num [RenderCtx.dc, initCam, ctxTiny, camBase, Pid, truncQ, dcT,
    degrees_to_radians, unit_vector, vec3.divs, vec3.length_squared, cross,
    derivedCam.mk.injEq, vec3_eq_iff]

theorem hitEmpty : ∀ (r : ray) (iv : interval),
    hittable.hit Pid worldEmpty r iv = none := by
  intro r iv
  rw [hittable.hit.eq_def]
  simp [worldEmpty, hitMany.eq_def]

theorem rayColorEmptyTiny (r : ray) (g : ℕ) :
    ray_color Pid camBase worldEmpty r 1 g =
      ((1 - 1 / 2 * ((unit_vector Pid.sqrt r.direction).y + 1)) •
          (⟨1, 1, 1⟩ : vec3) +
        (1 / 2 * ((unit_vector Pid.sqrt r.direction).y + 1)) •
          (⟨1 / 2, 7 / 10, 1⟩ : vec3), g) := by
  rw [ray_color]
  norm_num [hitEmpty]

theorem getRayTiny (i j : ℤ) (g : ℕ) :
    get_ray camBase dcT i j g =
      (⟨⟨0, 0, 0⟩, ⟨(i : ℚ) * 10, 5 - (j : ℚ) * 10, -10⟩⟩, g) := by
  norm_num [get_ray, camBase, dcT, Prod.ext_iff, ray.mk.injEq,
    vec3_eq_iff]
  ring

theorem renderTiny_facts :
    (render_to_buffer_with_progress ctxTiny (fun _ => false) (fun _ => 0)
      0).completed = 2 ∧
    (render_to_buffer_with_progress ctxTiny (fun _ => false) (fun _ => 0)
      0).texTrace =
      [⟨true, 0, 0, 0, 1, 1⟩, ⟨false, 0, 0, 0, 0, 1⟩,
       ⟨true, 1, 0, 0, 1, 2⟩, ⟨false, 1, 0, 0, 0, 2⟩] ∧
    (render_to_buffer_with_progress ctxTiny (fun _ => false) (fun _ => 0)
      0).progressTrace = [1 / 2, 1] ∧
    (render_to_buffer_with_progress ctxTiny (fun _ => false) (fun _ => 0)
      0).buffer = [0, 255, 255, 255, 255, 255] := by
  have ht1 : Int.tdiv 2 100 = 0 := by decide
  have ht2 : Int.tdiv 2 20 = 0 := by decide
  have hm0 : Int.tmod 0 1 = 0 := by decide
  have hm1 : Int.tmod 1 1 = 0 := by decide
  have hmx : (1 : ℤ) ⊔ 0 = 1 := by omega
  have hcamT : ctxTiny.cam = camBase := rfl
  have hPT : ctxTiny.P = Pid := rfl
  have hwT : ctxTiny.world = worldEmpty := rfl
  have hW1 : camBase.image_width = 1 := rfl
  have hmd : camBase.max_depth = 1 := rfl
  have hh2 : dcT.image_height = 2 := rfl
  have hsqrt : ∀ x, Pid.sqrt x = 1 := fun _ => rfl
  have hsc1 : sampleCount camBase = 1 := by norm_num [sampleCount, camBase]
  have htp : totalPix ctxTiny = 2 := by
    rw [totalPix, hcamT, dcTiny, hW1, hh2]
    norm_num
  have huf : updFreq ctxTiny = 1 := by
    rw [updFreq, htp, ht1, hmx]
  refine ⟨?_, ?_, ?_, ?_⟩ <;>
    norm_num [render_to_buffer_with_progress, rowLoop, pixelLoop, sampleLoop,
      hcamT, hPT, hwT, dcTiny, hW1, hmd, hh2, hsqrt, hsc1, htp, huf,
      getRayTiny, rayColorEmptyTiny, unit_vector, vec3.divs,
      vec3.length_squared, byteOf, linear_to_gamma, interval.clamp, intensity,
      ht1, ht2, hm0, hm1, hmx, Int.toNat_one, Int.toNat_ofNat, List.set]

/-- Every texture-update event the pixel loop appends is a per-pixel raise
satisfying the throttle disjunction. -/
theorem pixelLoop_tex (ctx : RenderCtx) (stop : ℕ → Bool) (clock : ℕ → ℤ)
    (j : ℕ) : ∀ (fuel i : ℕ) (st : RState),
    (∀ e ∈ st.texTrace, TexOk ctx e) →
    ∀ e ∈ (pixelLoop ctx stop clock j fuel i st).texTrace, TexOk ctx e := by
  intro fuel
  induction fuel with
  | zero =>
    intro i st h
    exact h
  | succ fuel ih =>
    intro i st h
    rw [pixelLoop]
    cases hstop : stop st.pollIdx with
    | true =>
      simp only [ite_true]
      exact h
    | false =>
      simp only [Bool.false_eq_true, ite_false]
      dsimp only
      rcases hsl : sampleLoop ctx stop (i : ℤ) (j : ℤ)
        (sampleCount ctx.cam).toNat ⟨0, 0, 0⟩ st.rng (st.pollIdx + 1)
        with ⟨acc, g1, poll1, obs⟩
      dsimp only
      cases hstop2 : stop poll1 with
      | true =>
        simp only [ite_true]
        exact h
      | false =>
        simp only [Bool.false_eq_true, ite_false]
        refine ih (i + 1) _ ?_
        intro e he
        dsimp only at he
        split at he
        next hraise =>
          rcases List.mem_append.mp he with hl | hr
          · exact h e hl
          · simp only [List.mem_singleton] at hr
            subst hr
            refine ⟨fun _ => ?_, fun hf => by simp at hf⟩
            simp only [Bool.or_eq_true, decide_eq_true_eq] at hraise
            rcases hraise with (hx | hx) | hx
            · exact Or.inl hx
            · exact Or.inr (Or.inl hx)
            · exact Or.inr (Or.inr hx)
        next => exact h e he

/-- Every texture-update event the row loop appends is either a justified
per-pixel raise or the unconditional row-end raise at a row index divisible
by `max 1 (image_height / 20)`. -/
theorem rowLoop_tex (ctx : RenderCtx) (stop : ℕ → Bool) (clock : ℕ → ℤ) :
    ∀ (fuel j : ℕ) (st : RState),
    (∀ e ∈ st.texTrace, TexOk ctx e) →
    ∀ e ∈ (rowLoop ctx stop clock fuel j st).texTrace, TexOk ctx e := by
  intro fuel
  induction fuel with
  | zero =>
    intro j st h
    exact h
  | succ fuel ih =>
    intro j st h
    rw [rowLoop]
    cases hstop : stop st.pollIdx with
    | true =>
      simp only [ite_true]
      exact h
    | false =>
      simp only [Bool.false_eq_true, ite_false]
      have hpx : ∀ e ∈ (pixelLoop ctx stop clock j
          ctx.cam.image_width.toNat 0
          { st with pollIdx := st.pollIdx + 1 }).texTrace, TexOk ctx e :=
        pixelLoop_tex ctx stop clock j ctx.cam.image_width.toNat 0
          { st with pollIdx := st.pollIdx + 1 } h
      by_cases hj : Int.tmod (j : ℤ)
          (max 1 (Int.tdiv ctx.dc.image_height 20)) = 0
      · simp only [if_pos hj]
        refine ih (j + 1) _ ?_
        intro e he
        rcases List.mem_append.mp he with hl | hr
        · exact hpx e hl
        · simp only [List.mem_singleton] at hr
          subst hr
          exact ⟨fun hf => by simp at hf, fun _ => hj⟩
      · simp only [if_neg hj]
        exact ih (j + 1) _ hpx

/-- C4 (amended): during one render invocation, every raise of the
texture-needs-update flag is one of two kinds.  A per-pixel raise
(src/inc/camera.hpp lines 111-113) happens only when at least the 100ms
update interval has elapsed since the last raise, or at least
`update_frequency = max(1, total_pixels/100)` pixels have completed since
the last raise, or rendering has just completed.  In addition — contrary to
the claim's "never raised at any other point" — the flag is raised
unconditionally at the end of every row whose index is divisible by
`max(1, image_height/20)` (lines 127-130), regardless of the three
throttle conditions. -/
theorem c4_texture_throttle (ctx : RenderCtx) (stop : ℕ → Bool)
    (clock : ℕ → ℤ) (seed : ℕ) :
    ∀ e ∈ (render_to_buffer_with_progress ctx stop clock seed).texTrace,
      (e.perPixel = true →
        100 ≤ e.now - e.lastUpdate ∨ updFreq ctx ≤ e.since ∨
          (e.completed : ℤ) = totalPix ctx) ∧
      (e.perPixel = false →
        Int.tmod (e.row : ℤ) (max 1 (Int.tdiv ctx.dc.image_height 20))
          = 0) := by
  intro e he
  unfold render_to_buffer_with_progress at he
  dsimp only at he
  exact rowLoop_tex ctx stop clock ctx.dc.image_height.toNat 0 _
    (fun x hx => absurd hx (List.not_mem_nil x)) e he

/-- The tiny 1×2 context renders two pixels in total. -/
theorem tinyTotal : totalPix ctxTiny = 2 := by
  have h1 : ctxTiny.cam.image_width = 1 := rfl
  have h2 : dcT.image_height = 2 := rfl
  rw [totalPix, h1, dcTiny, h2]
  norm_num

/-- The tiny context's per-pixel update frequency is one pixel. -/
theorem tinyFreq : updFreq ctxTiny = 1 := by
  have h : Int.tdiv 2 100 = 0 := by decide
  rw [updFreq, tinyTotal, h]
  omega

/-- C4 (witness): the first texture-update event of the uncancelled tiny
render is a per-pixel raise, and the amended theorem certifies its
throttle disjunction (here: one pixel has completed since the last raise
and the update frequency is one pixel). -/
theorem c4_witness :
    (⟨true, 0, 0, 0, 1, 1⟩ : TexEvent) ∈
      (render_to_buffer_with_progress ctxTiny (fun _ => false) (fun _ => 0)
        0).texTrace ∧
    (100 ≤ (0 : ℤ) - 0 ∨ updFreq ctxTiny ≤ 1 ∨
      ((1 : ℕ) : ℤ) = totalPix ctxTiny) := by
  have hmem : (⟨true, 0, 0, 0, 1, 1⟩ : TexEvent) ∈
      (render_to_buffer_with_progress ctxTiny (fun _ => false) (fun _ => 0)
        0).texTrace := by
    rw [renderTiny_facts.2.1]
    simp
  exact ⟨hmem, (c4_texture_throttle ctxTiny (fun _ => false) (fun _ => 0) 0
    ⟨true, 0, 0, 0, 1, 1⟩ hmem).1 rfl⟩

/-- C4 (counterexample): in the tiny two-pixel render under a constant
clock, the row-end raise of src/inc/camera.hpp lines 127-130 fires after
the first pixel of row 0 even though none of the claim's three conditions
holds at that point: no time has elapsed since the last raise, zero pixels
have accumulated since the last raise (below the update frequency of one),
and rendering has not completed (one of two pixels done) — the flag is
raised at a point where the claim says it never is. -/
theorem c4_counterexample :
    (⟨false, 0, 0, 0, 0, 1⟩ : TexEvent) ∈
      (render_to_buffer_with_progress ctxTiny (fun _ => false) (fun _ => 0)
        0).texTrace ∧
    ¬(100 ≤ (0 : ℤ) - 0 ∨ updFreq ctxTiny ≤ 0 ∨
        ((1 : ℕ) : ℤ) = totalPix ctxTiny) := by
  constructor
  · rw [renderTiny_facts.2.1]
    simp
  · intro h
    rcases h with h | h | h
    · omega
    · rw [tinyFreq] at h
      omega
    · rw [tinyTotal] at h
      omega

/-- Under `stop4`, the tiny render is cancelled at the start of its second
row: the row-start poll observes the flag, one pixel is completed, and its
bytes are already in the buffer. -/
theorem renderTinyStop_facts :
    (render_to_buffer_with_progress ctxTiny stop4 (fun _ => 0) 0).halted
      = true ∧
    (render_to_buffer_with_progress ctxTiny stop4 (fun _ => 0) 0).completed
      = 1 := by
  have ht1 : Int.tdiv 2 100 = 0 := by decide
  have ht2 : Int.tdiv 2 20 = 0 := by decide
  have hm0 : Int.tmod 0 1 = 0 := by decide
  have hmx : (1 : ℤ) ⊔ 0 = 1 := by omega
  have hcamT : ctxTiny.cam = camBase := rfl
  have hPT : ctxTiny.P = Pid := rfl
  have hwT : ctxTiny.world = worldEmpty := rfl
  have hW1 : camBase.image_width = 1 := rfl
  have hmd : camBase.max_depth = 1 := rfl
  have hh2 : dcT.image_height = 2 := rfl
  have hsqrt : ∀ x, Pid.sqrt x = 1 := fun _ => rfl
  have hsc1 : sampleCount camBase = 1 := by norm_num [sampleCount, camBase]
  have htp : totalPix ctxTiny = 2 := tinyTotal
  have huf : updFreq ctxTiny = 1 := tinyFreq
  refine ⟨?_, ?_⟩ <;>
    norm_num [render_to_buffer_with_progress, rowLoop, pixelLoop, sampleLoop,
      stop4, hcamT, hPT, hwT, dcTiny, hW1, hmd, hh2, hsqrt, hsc1, htp, huf,
      getRayTiny, rayColorEmptyTiny, unit_vector, vec3.divs,
      vec3.length_squared, byteOf, linear_to_gamma, interval.clamp, intensity,
      ht1, ht2, hm0, hmx, Int.toNat_one, Int.toNat_ofNat, List.set]

/-- C2 (witness): the cancellation theorem applied to the tiny render under
the write-once flag `stop4`: a checkpoint observed the flag, and strictly
fewer than all pixels were completed. -/
theorem c2_witness :
    (render_to_buffer_with_progress ctxTiny stop4 (fun _ => 0) 0).halted
        = true ∧
    (render_to_buffer_with_progress ctxTiny stop4 (fun _ => 0) 0).completed
      < (totalPix ctxTiny).toNat := by
  refine ⟨renderTinyStop_facts.1, ?_⟩
  exact (c2_cooperative_cancellation ctxTiny stop4 (fun _ => 0) 0
    (fun m1 m2 h12 hm => by
      simp only [stop4, decide_eq_true_eq] at hm ⊢
      omega)
    (by decide) renderTinyStop_facts.1).1

/-- C3 (witness): the byte-layout theorem applied to pixel (0,0) of the
uncancelled tiny render, channel R. -/
theorem c3_witness :
    0 < ctxTiny.cam.image_width.toNat ∧ 0 < ctxTiny.dc.image_height.toNat ∧
    (0 : ℕ) < 3 ∧
    (render_to_buffer_with_progress ctxTiny (fun _ => false) (fun _ => 0)
        0).buffer.getD (3 * (0 * ctxTiny.cam.image_width.toNat + 0) + 0) 0
      = chan (refBytes ctxTiny 0 (0 * ctxTiny.cam.image_width.toNat + 0))
          0 := by
  have h1 : (0 : ℕ) < ctxTiny.cam.image_width.toNat := by decide
  have h2 : (0 : ℕ) < ctxTiny.dc.image_height.toNat := by
    rw [dcTiny]
    decide
  exact ⟨h1, h2, by decide,
    (c3_pixel_bytes ctxTiny (fun _ => 0) 0 0 0 0 h1 h2 (by decide)).2⟩

/-- C6 (witness): the progress theorem applied to the uncancelled tiny
render: the value 1 is stored, since both pixels complete. -/
theorem c6_witness :
    (1 : ℚ) ∈ (render_to_buffer_with_progress ctxTiny (fun _ => false)
      (fun _ => 0) 0).progressTrace :=
  (c6_progress_stores ctxTiny (fun _ => false) (fun _ => 0) 0
    (fun _ _ _ hm => hm)).2.2.mpr
    ⟨by rw [renderTiny_facts.1, tinyTotal]; decide, by rw [tinyTotal]; omega⟩
